import Mathlib

/-!
# Joba_JbdBms: the request/response driver of a JBD battery management system

A shallow embedding of `src/src/jbdbms.cpp` and `src/include/jbdbms.h`.

* Machine integers are natural numbers; `uint8_t` values are below 256, `uint16_t`
  arithmetic is reduced modulo 65536 and `uint32_t` arithmetic modulo 2^32 exactly where
  the C++ code wraps.
* The host is little-endian (ESP32 / AVR): the object representation of a `uint16_t` is
  its low byte followed by its high byte.
* The collaborators of the driver (the `Stream`, the millisecond clock, the GPIO pin) are
  an explicit `World` that every operation threads through, with a time-stamped trace of
  the calls that were made.
* A pointer argument is an `Option`: `none` is the null pointer, `some m` is the memory
  the pointer refers to, as a list of bytes starting at the pointed-to address.
-/

/-- The data members of the C++ class `JbdBms` (the stream reference lives in `World`). -/
structure JbdBms where
  /-- The `uint8_t _delay`: minimal spacing of commands in milliseconds. -/
  _delay : Nat
  /-- The `uint32_t _prev`: value of `millis()` stored by the previous `execute`. -/
  _prev : Nat
  /-- The `int _dir_pin`: direction pin, negative when the hardware switches by itself. -/
  _dir_pin : Int
  deriving DecidableEq, Repr

namespace JbdBms

/-! ## The outside world -/

/-- One call of the driver into its environment. -/
inductive Event where
  /-- The call `pinMode(pin, OUTPUT)`. -/
  | pinMode (pin : Int)
  /-- The call `digitalWrite(pin, level)`, `true` is `HIGH`. -/
  | digitalWrite (pin : Int) (high : Bool)
  /-- The call `delay(ms)`. -/
  | delay (ms : Nat)
  /-- The call `millis()` together with the value it returned. -/
  | millis (value : Nat)
  /-- The call `_serial.flush()`. -/
  | flush
  /-- The call `_serial.write(buf, n)`: the `n` bytes offered and the count returned. -/
  | write (offered : List Nat) (accepted : Nat)
  /-- The call `_serial.readBytes(buf, n)`: the count asked for and the bytes delivered. -/
  | readBytes (asked : Nat) (got : List Nat)
  deriving DecidableEq, Repr

/-- Environment of the driver: clock, serial stream and the log of calls made so far. -/
structure World where
  /-- True time in milliseconds since boot (not truncated). -/
  clock : Nat
  /-- Duration of the successive blocking stream calls (`flush`, `write`, `readBytes`);
  calls after the end of the list take no time. -/
  lags : List Nat
  /-- For the successive `write` calls, the largest number of bytes the call accepts;
  calls after the end of the list accept everything. -/
  caps : List Nat
  /-- Bytes the stream delivers to `readBytes`, in order; when fewer remain than are
  asked for, the call times out and returns the ones that remain. -/
  input : List Nat
  /-- Bytes the stream has accepted from `write`, in order. -/
  output : List Nat
  /-- Calls made so far, each with the true time at which it started. -/
  trace : List (Nat × Event)
  deriving DecidableEq, Repr

/-- Append a call to the log, stamped with the current time. -/
def World.emit (w : World) (e : Event) : World :=
  { w with trace := w.trace ++ [(w.clock, e)] }

/-- Let the time of one blocking stream call pass. -/
def World.elapse (w : World) : World :=
  { w with clock := w.clock + w.lags.headD 0, lags := w.lags.tail }

/-- Arduino `millis()`: the clock truncated to 32 bits. -/
def millis (w : World) : Nat × World :=
  (w.clock % 2 ^ 32, w.emit (Event.millis (w.clock % 2 ^ 32)))

/-- Arduino `delay(ms)`: blocks for `ms` milliseconds. -/
def delay (ms : Nat) (w : World) : World :=
  { w.emit (Event.delay ms) with clock := w.clock + ms }

/-- Arduino `pinMode(pin, OUTPUT)`. -/
def pinMode (pin : Int) (w : World) : World :=
  w.emit (Event.pinMode pin)

/-- Arduino `digitalWrite(pin, level)`. -/
def digitalWrite (pin : Int) (high : Bool) (w : World) : World :=
  w.emit (Event.digitalWrite pin high)

/-- Stream `flush()`. -/
def flush (w : World) : World :=
  (w.emit Event.flush).elapse

/-- Number of bytes a `write` of `n` bytes gets accepted. -/
def accepted (caps : List Nat) (n : Nat) : Nat :=
  match caps with
  | [] => n
  | c :: _ => min c n

/-- Stream `write(buf, n)` with `bs` the `n` bytes at `buf`: returns the accepted count. -/
def write (bs : List Nat) (w : World) : Nat × World :=
  let k := accepted w.caps bs.length
  (k, { (w.emit (Event.write bs k)).elapse with
          caps := w.caps.tail, output := w.output ++ bs.take k })

/-- Stream `readBytes(buf, n)`: returns the bytes delivered (their count is the C++
return value). -/
def readBytes (n : Nat) (w : World) : List Nat × World :=
  let got := w.input.take n
  (got, { (w.emit (Event.readBytes n got)).elapse with input := w.input.drop n })

/-- Memory at a pointer after `bytes` were stored there: the stored bytes replace the
first ones; bytes stored past the end of the modelled region extend it. -/
def store (mem bytes : List Nat) : List Nat :=
  bytes ++ mem.drop bytes.length

/-! ## Data types of `jbdbms.h` -/

/-- The `direction_t` value `READ`. -/
def READ : Nat := 0xa5

/-- The `direction_t` value `WRITE`. -/
def WRITE : Nat := 0x5a

/-- The struct `request_header_t`: four `uint8_t`. -/
structure request_header_t where
  start : Nat
  direction : Nat
  command : Nat
  length : Nat
  deriving DecidableEq, Repr

/-- The struct `response_header_t`: four `uint8_t`. -/
structure response_header_t where
  start : Nat
  command : Nat
  returncode : Nat
  length : Nat
  deriving DecidableEq, Repr

/-- Object representation of a request header, as `(uint8_t *)&header` sees it. -/
def request_header_t.bytes (h : request_header_t) : List Nat :=
  [h.start, h.direction, h.command, h.length]

/-- A zero-initialised response header (`= {0}`) after `got` was read over its start. -/
def response_header_t.ofBytes (got : List Nat) : response_header_t :=
  { start := got.getD 0 0, command := got.getD 1 0,
    returncode := got.getD 2 0, length := got.getD 3 0 }

/-- Object representation of a `uint16_t` on the little-endian host. -/
def u16Bytes (v : Nat) : List Nat :=
  [v % 256, v / 256 % 256]

/-- Value of a `uint16_t` whose object representation is `lo, hi`. -/
def u16OfBytes (lo hi : Nat) : Nat :=
  lo + 256 * hi

/-! ## Checksum -/

/-- Modelled from the spec: the helper `swap(uint16_t *)` is called by jbdbms.cpp but is
not defined in the sources at hand; the spec describes it as the byte-swap primitive that
converts a 16-bit value between wire order and host order. It swaps in place and returns
the swapped value. -/
def swap (v : Nat) : Nat :=
  (v % 256) * 256 + v / 256 % 256

/-- The statement `crc -= b` on a `uint16_t crc` with a `uint8_t b`. -/
def sub16 (crc b : Nat) : Nat :=
  (crc + 65536 - b) % 65536

/-- Source `JbdBms::genCrc`, jbdbms.cpp lines 132-144. -/
def genCrc (byte len : Nat) (data : Option (List Nat)) : Nat :=
  let crc :=
    if len < 31 ∧ (len = 0 ∨ data.isSome) then
      ((data.getD []).take len).foldl sub16 (sub16 (sub16 0 byte) len)
    else 0
  swap crc

/-- Source `JbdBms::genRequestCrc`, jbdbms.cpp lines 122-124. -/
def genRequestCrc (header : request_header_t) (data : Option (List Nat)) : Nat :=
  genCrc header.command header.length data

/-- Source `JbdBms::genResponseCrc`, jbdbms.cpp lines 128-130. -/
def genResponseCrc (header : response_header_t) (data : Option (List Nat)) : Nat :=
  genCrc header.returncode header.length data

/-- Source `JbdBms::isValid`, jbdbms.cpp lines 148-150. -/
def isValid (header : response_header_t) (data : Option (List Nat)) (crc : Nat) : Bool :=
  genResponseCrc header data == crc

/-- Source `JbdBms::prepareCmd`, jbdbms.cpp lines 154-158: returns the flag, the header with its
start byte set, and the checksum. -/
def prepareCmd (header : request_header_t) (data : Option (List Nat)) :
    Bool × request_header_t × Nat :=
  let header := { header with start := 0xdd }
  let crc := genRequestCrc header data
  (crc != 0, header, crc)

/-! ## `execute` -/

/-- The value `remaining` of jbdbms.cpp line 37, `_delay - (millis() - _prev)` in
`uint32_t` arithmetic. -/
def remaining (_delay now _prev : Nat) : Nat :=
  (_delay + 2 ^ 32 - (now + 2 ^ 32 - _prev) % 2 ^ 32) % 2 ^ 32

/-- Lines 37-40 of `execute`: wait until the command spacing has passed. -/
def spacing (self : JbdBms) (w : World) : World :=
  let t := millis w
  if remaining self._delay t.1 self._prev ≤ self._delay then
    delay (remaining self._delay t.1 self._prev) t.2
  else t.2

/-- Lines 47-50 of `execute`: the four writes of a request, chained with `&&`. -/
def transmit (header : request_header_t) (command : Option (List Nat)) (crc : Nat)
    (w : World) : Bool × World :=
  let r1 := write header.bytes w
  if r1.1 ≠ 4 then (false, r1.2) else
  let r2 := write ((command.getD []).take header.length) r1.2
  if r2.1 ≠ header.length then (false, r2.2) else
  let r3 := write (u16Bytes crc) r2.2
  if r3.1 ≠ 2 then (false, r3.2) else
  let r4 := write [0x77] r3.2
  (r4.1 == 1, r4.2)

/-- Line 61 of `execute`: the payload is read into `result` unless the length is zero. -/
def readPayload (length : Nat) (result : Option (List Nat)) (w : World) :
    Bool × Option (List Nat) × World :=
  if length = 0 then (true, result, w) else
  match result with
  | none => (false, none, w)
  | some mem =>
    let r := readBytes length w
    (r.1.length == length, some (store mem r.1), r.2)

/-- Lines 58-65 of `execute`: read and validate the response, chained with `&&`. -/
def receive (result : Option (List Nat)) (w : World) :
    Bool × Option (List Nat) × World :=
  let r1 := readBytes 4 w
  let header := response_header_t.ofBytes r1.1
  if r1.1.length ≠ 4 then (false, result, r1.2) else
  if ¬ (header.start = 0xdd ∧ header.length ≤ 64) then (false, result, r1.2) else
  let r2 := readPayload header.length result r1.2
  if r2.1 = false then (false, r2.2.1, r2.2.2) else
  let r3 := readBytes 2 r2.2.2
  if r3.1.length ≠ 2 then (false, r2.2.1, r3.2) else
  let crc := u16OfBytes (r3.1.getD 0 0) (r3.1.getD 1 0)
  let r4 := readBytes 1 r3.2
  if r4.1.length ≠ 1 then (false, r2.2.1, r4.2) else
  (isValid header r2.2.1 crc && header.returncode == 0, r2.2.1, r4.2)

/-- What a call of `execute` leaves behind. -/
structure Outcome where
  /-- The return value. -/
  rc : Bool
  /-- The object after the call. -/
  self : JbdBms
  /-- The caller's request header after the call (passed by reference). -/
  header : request_header_t
  /-- The memory at `result` after the call. -/
  result : Option (List Nat)
  /-- The world after the call. -/
  world : World
  deriving DecidableEq, Repr

/-- Source `JbdBms::execute`, jbdbms.cpp lines 29-71. -/
def execute (self : JbdBms) (header : request_header_t) (command result : Option (List Nat))
    (w : World) : Outcome :=
  let p := prepareCmd header command
  if p.1 = false then ⟨false, self, p.2.1, result, w⟩ else
  let w1 := spacing self w
  let w2 := if 0 ≤ self._dir_pin then digitalWrite self._dir_pin true w1 else w1
  let w3 := flush w2
  let t := transmit p.2.1 command p.2.2 w3
  let w4 := flush t.2
  let w5 := if 0 ≤ self._dir_pin then digitalWrite self._dir_pin false w4 else w4
  let r := if t.1 then receive result w5 else (false, result, w5)
  let m := millis r.2.2
  ⟨r.1, { self with _prev := m.1 }, p.2.1, r.2.1, m.2⟩

/-- Source `JbdBms::begin`, jbdbms.cpp lines 21-27. -/
def begin (self : JbdBms) (dir_pin : Int) (w : World) : JbdBms × World :=
  let self := { self with _dir_pin := dir_pin }
  if 0 ≤ self._dir_pin then
    (self, digitalWrite self._dir_pin false (pinMode self._dir_pin w))
  else (self, w)

/-! ## Commands -/

/-- The `cmd_t` value `STATUS`. -/
def STATUS : Nat := 3

/-- The `cmd_t` value `CELLS`. -/
def CELLS : Nat := 4

/-- The `cmd_t` value `HARDWARE`. -/
def HARDWARE : Nat := 5

/-- The `cmd_t` value `MOSFET`. -/
def MOSFET : Nat := 0xe1

/-- The enum `mosfet_t`. -/
inductive mosfet_t where
  | MOSFET_NONE
  | MOSFET_CHARGE
  | MOSFET_DISCHARGE
  | MOSFET_BOTH
  deriving DecidableEq, Repr

/-- Numeric value of a `mosfet_t` enumerator. -/
def mosfet_t.val : mosfet_t → Nat
  | mosfet_t.MOSFET_NONE => 0
  | mosfet_t.MOSFET_CHARGE => 1
  | mosfet_t.MOSFET_DISCHARGE => 2
  | mosfet_t.MOSFET_BOTH => 3

/-- The `uint16_t` object at byte offset `off` of the memory `mem`. -/
def u16At (mem : List Nat) (off : Nat) : Nat :=
  u16OfBytes (mem.getD off 0) (mem.getD (off + 1) 0)

/-- The memory `mem` after the `uint16_t` value `v` was stored at byte offset `off`. -/
def setU16At (mem : List Nat) (off v : Nat) : List Nat :=
  (mem.set off (v % 256)).set (off + 1) (v / 256 % 256)

/-- The call `swap(p)` with `p` pointing to the `uint16_t` at byte offset `off` of `mem`:
the value is replaced by its swap, in place. -/
def swapAt (mem : List Nat) (off : Nat) : List Nat :=
  setU16At mem off (swap (u16At mem off))

/-- The nine `swap` calls of `getStatus`, jbdbms.cpp lines 79-87, on the memory of a
`Status_t` (two bytes per field, fields packed). -/
def swapStatus (data : List Nat) : List Nat :=
  let data := swapAt data 0    -- voltage
  let data := swapAt data 2    -- current
  let data := swapAt data 4    -- remainingCapacity
  let data := swapAt data 6    -- nominalCapacity
  let data := swapAt data 8    -- cycles
  let data := swapAt data 10   -- productionDate
  let data := swapAt data 12   -- balanceLow
  let data := swapAt data 14   -- balanceHigh
  swapAt data 16               -- fault

/-- Source `JbdBms::getStatus`, jbdbms.cpp lines 76-92; `data` is the memory of the
caller's `Status_t`, returned in `result`. -/
def getStatus (self : JbdBms) (data : List Nat) (w : World) : Outcome :=
  let o := execute self ⟨0, READ, STATUS, 0⟩ none (some data) w
  { o with result := o.result.map swapStatus }

/-- The loop of `getCells`, jbdbms.cpp lines 97-99: `swap(&data.voltages[i])` for the
first `n` elements of the array. -/
def swapCells (n : Nat) (data : List Nat) : List Nat :=
  (List.range n).foldl (fun m i => swapAt m (2 * i)) data

/-- Source `JbdBms::getCells`, jbdbms.cpp lines 94-101; `data` is the memory of the
caller's `Cells_t`, an array of 32 `uint16_t`. -/
def getCells (self : JbdBms) (data : List Nat) (w : World) : Outcome :=
  let o := execute self ⟨0, READ, CELLS, 0⟩ none (some data) w
  { o with result := o.result.map (swapCells 32) }

/-- Source `JbdBms::getHardware`, jbdbms.cpp lines 103-106; `data` is the memory of the
caller's `Hardware_t`, an array of 32 `char`. -/
def getHardware (self : JbdBms) (data : List Nat) (w : World) : Outcome :=
  execute self ⟨0, READ, HARDWARE, 0⟩ none (some data) w

/-- Source `JbdBms::setMosfetStatus`, jbdbms.cpp lines 111-115. -/
def setMosfetStatus (self : JbdBms) (status : mosfet_t) (w : World) : Outcome :=
  execute self ⟨0, WRITE, MOSFET, 2⟩ (some [0, status.val]) none w

/-! ## Static helpers of `jbdbms.h` -/

/-- Source `JbdBms::isCellOvervoltage`, jbdbms.h line 137. -/
def isCellOvervoltage (fault : Nat) : Bool := (fault &&& 0x0001) != 0

/-- Source `JbdBms::isCellUndervoltage`, jbdbms.h line 138. -/
def isCellUndervoltage (fault : Nat) : Bool := (fault &&& 0x0002) != 0

/-- Source `JbdBms::isOvervoltage`, jbdbms.h line 139. -/
def isOvervoltage (fault : Nat) : Bool := (fault &&& 0x0004) != 0

/-- Source `JbdBms::isUndervoltage`, jbdbms.h line 140. -/
def isUndervoltage (fault : Nat) : Bool := (fault &&& 0x0008) != 0

/-- Source `JbdBms::isChargeOvertemperature`, jbdbms.h line 141. -/
def isChargeOvertemperature (fault : Nat) : Bool := (fault &&& 0x0010) != 0

/-- Source `JbdBms::isChargeUndertemperature`, jbdbms.h line 142. -/
def isChargeUndertemperature (fault : Nat) : Bool := (fault &&& 0x0020) != 0

/-- Source `JbdBms::isDischargeOvertemperature`, jbdbms.h line 143. -/
def isDischargeOvertemperature (fault : Nat) : Bool := (fault &&& 0x0040) != 0

/-- Source `JbdBms::isDischargeUndertemperature`, jbdbms.h line 144. -/
def isDischargeUndertemperature (fault : Nat) : Bool := (fault &&& 0x0080) != 0

/-- Source `JbdBms::isChargeOvercurrent`, jbdbms.h line 145. -/
def isChargeOvercurrent (fault : Nat) : Bool := (fault &&& 0x0100) != 0

/-- Source `JbdBms::isDischargeOvercurrent`, jbdbms.h line 146. -/
def isDischargeOvercurrent (fault : Nat) : Bool := (fault &&& 0x0200) != 0

/-- Source `JbdBms::isShortCircuit`, jbdbms.h line 147. -/
def isShortCircuit (fault : Nat) : Bool := (fault &&& 0x0400) != 0

/-- Source `JbdBms::isIcError`, jbdbms.h line 148. -/
def isIcError (fault : Nat) : Bool := (fault &&& 0x0800) != 0

/-- Source `JbdBms::isMosfetSoftwareLock`, jbdbms.h line 149. -/
def isMosfetSoftwareLock (fault : Nat) : Bool := (fault &&& 0x1000) != 0

/-- Modelled from the spec: the helper `JbdBms::year` is called by the Monitor example but
is not declared in the header at hand; the spec gives year = 2000 + (value >> 9) for the
packed production date. -/
def year (productionDate : Nat) : Nat :=
  2000 + (productionDate >>> 9)

/-- Modelled from the spec: the helper `JbdBms::month` is called by the Monitor example
but is not declared in the header at hand; the spec gives month = (value >> 5) & 0xF. -/
def month (productionDate : Nat) : Nat :=
  (productionDate >>> 5) &&& 0xF

/-- Modelled from the spec: the helper `JbdBms::day` is called by the Monitor example but
is not declared in the header at hand; the spec gives day = value & 0x1F. -/
def day (productionDate : Nat) : Nat :=
  productionDate &&& 0x1F

/-! ## Vocabulary of the statements -/

/-- The stream accepts in full the successive writes of the given sizes. -/
def acceptsInFull : List Nat → List Nat → Bool
  | [], _ => true
  | _, [] => true
  | c :: cs, n :: ns => decide (n ≤ c) && acceptsInFull cs ns

/-- All elements are `uint8_t` values. -/
def allBytes (bs : List Nat) : Bool :=
  bs.all (fun b => decide (b < 256))

/-- Two bytes read big-endian, high byte first. -/
def beValue (bs : List Nat) : Nat :=
  bs.getD 0 0 * 256 + bs.getD 1 0

/-- Declared payload length of the response at the head of the stream: its fourth byte. -/
def declaredLength (inp : List Nat) : Nat :=
  inp.getD 3 0

/-- Payload of the response at the head of the stream: the bytes after the header. -/
def payloadOf (inp : List Nat) : List Nat :=
  (inp.drop 4).take (declaredLength inp)

/-- The two checksum bytes of the response at the head of the stream, in wire order. -/
def checksumOf (inp : List Nat) : List Nat :=
  (inp.drop (4 + declaredLength inp)).take 2

/-- The world in which `execute` starts to write: after the spacing wait, the switch of
the direction pin to transmit and the first `flush` (lines 37-46). -/
def txWorld (self : JbdBms) (w : World) : World :=
  flush (if 0 ≤ self._dir_pin then digitalWrite self._dir_pin true (spacing self w)
    else spacing self w)

/-- The world in which `execute` starts to read: after the writes, the second `flush` and
the switch of the direction pin to receive (lines 47-55). -/
def rxWorld (self : JbdBms) (header : request_header_t) (command : Option (List Nat))
    (w : World) : World :=
  let p := prepareCmd header command
  let t := transmit p.2.1 command p.2.2 (txWorld self w)
  if 0 ≤ self._dir_pin then digitalWrite self._dir_pin false (flush t.2) else flush t.2

/-- A response as it travels on the wire: header, payload, two checksum bytes, stop byte. -/
def responseFrame (start cmd rc : Nat) (payload : List Nat) (crcHi crcLo stop : Nat) :
    List Nat :=
  [start, cmd, rc, payload.length] ++ payload ++ [crcHi, crcLo, stop]

/-- The arithmetic checksum of the protocol: the 16-bit negated sum of the seed byte, the
length and the data bytes. -/
def negSum (byte : Nat) (data : List Nat) : Nat :=
  (2 ^ 16 - (byte + data.length + data.sum)) % 2 ^ 16

/-- The stop byte of the response at the head of the stream: the byte after the two
checksum bytes. -/
def stopOf (inp : List Nat) : Nat :=
  inp.getD (6 + declaredLength inp) 0

/-- The stream contents with bit `k` of byte `i` flipped. -/
def flipBit (inp : List Nat) (i k : Nat) : List Nat :=
  inp.set i (inp.getD i 0 ^^^ 2 ^ k)

/-- The `write` calls in the log: bytes offered and count accepted. -/
def writes (w : World) : List (List Nat × Nat) :=
  w.trace.filterMap fun e =>
    match e.2 with
    | Event.write bs k => some (bs, k)
    | _ => none

/-- The `readBytes` calls in the log: count asked for and bytes delivered. -/
def reads (w : World) : List (Nat × List Nat) :=
  w.trace.filterMap fun e =>
    match e.2 with
    | Event.readBytes n got => some (n, got)
    | _ => none

/-- The `delay` calls in the log: their durations. -/
def delays (w : World) : List Nat :=
  w.trace.filterMap fun e =>
    match e.2 with
    | Event.delay ms => some ms
    | _ => none

/-- The true times at which the `write` calls in the log started. -/
def writeTimes (w : World) : List Nat :=
  w.trace.filterMap fun e =>
    match e.2 with
    | Event.write _ _ => some e.1
    | _ => none

/-- The time between `_prev` and `now` as the driver computes it, `now - _prev` in
`uint32_t` arithmetic. -/
def elapsed (now _prev : Nat) : Nat :=
  (now + 2 ^ 32 - _prev) % 2 ^ 32

/-- The world `w1` continues `w0` with calls other than `delay` that all started at time
`c` or later. -/
def After (c : Nat) (w0 w1 : World) : Prop :=
  ∃ evs : List (Nat × Event),
    w1.trace = w0.trace ++ evs ∧ (∀ e ∈ evs, c ≤ e.1 ∧ ∀ ms, e.2 ≠ Event.delay ms)
      ∧ c ≤ w1.clock

/-- The value of an `int16_t` whose bit pattern is the `uint16_t` value `v`. -/
def toInt16 (v : Nat) : Int :=
  if v < 32768 then (v : Int) else (v : Int) - 65536

/-- The struct `Status_t` of jbdbms.h lines 86-101, as the values of its fields. -/
structure Status_t where
  voltage : Nat
  current : Int
  remainingCapacity : Nat
  nominalCapacity : Nat
  cycles : Nat
  productionDate : Nat
  balanceLow : Nat
  balanceHigh : Nat
  fault : Nat
  version : Nat
  currentCapacity : Nat
  mosfetSatus : Nat
  cells : Nat
  ntcs : Nat
  deriving DecidableEq, Repr

/-- The `Status_t` whose object representation is `mem`: nine two-byte fields followed
by five one-byte fields, without padding between them. -/
def Status_t.ofBytes (mem : List Nat) : Status_t :=
  { voltage := u16At mem 0, current := toInt16 (u16At mem 2),
    remainingCapacity := u16At mem 4, nominalCapacity := u16At mem 6,
    cycles := u16At mem 8, productionDate := u16At mem 10,
    balanceLow := u16At mem 12, balanceHigh := u16At mem 14, fault := u16At mem 16,
    version := mem.getD 18 0, currentCapacity := mem.getD 19 0,
    mosfetSatus := mem.getD 20 0, cells := mem.getD 21 0, ntcs := mem.getD 22 0 }

/-- Element `i` of the array in a `Cells_t` whose object representation is `mem`. -/
def Cells_t.voltage (mem : List Nat) (i : Nat) : Nat :=
  u16At mem (2 * i)

/-- A well-formed response as the device sends it: start byte, echoed command, return
code 0, length, payload, the arithmetic checksum high byte first, stop byte. -/
def wellFormed (cmd : Nat) (payload : List Nat) : List Nat :=
  responseFrame 0xdd cmd 0 payload (negSum 0 payload / 256) (negSum 0 payload % 256) 0x77

/-- The calls in the log, without their times. -/
def events (w : World) : List Event :=
  w.trace.map Prod.snd

/-- The calls made between the world `w0` and its continuation `w1`. -/
def callsSince (w0 w1 : World) : List Event :=
  (events w1).drop (events w0).length

/-- The call is a `write` to the stream. -/
def Event.isWrite : Event → Bool
  | Event.write _ _ => true
  | _ => false

/-- The call is a `readBytes` from the stream. -/
def Event.isRead : Event → Bool
  | Event.readBytes _ _ => true
  | _ => false

/-- The call is a `digitalWrite`. -/
def Event.isPinWrite : Event → Bool
  | Event.digitalWrite _ _ => true
  | _ => false

/-- The level that a call drives the pin `pin` to, if it is a `digitalWrite` to it. -/
def Event.drives (pin : Int) : Event → Option Bool
  | Event.digitalWrite p high => if p = pin then some high else none
  | _ => none

/-- The level the pin was last driven to in the log, if it was driven at all. -/
def pinLevel (w : World) (pin : Int) : Option Bool :=
  ((events w).filterMap (Event.drives pin)).getLast?

/-- The world `w1` continues `w0` with calls that all satisfy `P`. -/
def Appends (P : Event → Bool) (w0 w1 : World) : Prop :=
  ∃ evs : List Event, events w1 = events w0 ++ evs ∧ ∀ e ∈ evs, P e = true

/-- A world with an idle stream: nothing written, nothing logged, no limits. -/
def World.fresh (clock : Nat) (input : List Nat) : World :=
  { clock := clock, lags := [], caps := [], input := input, output := [], trace := [] }


/-! ## Effect of the primitive calls on the parts of the world -/

section Primitives

variable (w : World)

@[simp] theorem emit_output (e : Event) : (w.emit e).output = w.output := rfl
@[simp] theorem emit_input (e : Event) : (w.emit e).input = w.input := rfl
@[simp] theorem emit_caps (e : Event) : (w.emit e).caps = w.caps := rfl
@[simp] theorem emit_lags (e : Event) : (w.emit e).lags = w.lags := rfl
@[simp] theorem emit_clock (e : Event) : (w.emit e).clock = w.clock := rfl
@[simp] theorem emit_trace (e : Event) : (w.emit e).trace = w.trace ++ [(w.clock, e)] := rfl

@[simp] theorem elapse_output : w.elapse.output = w.output := rfl
@[simp] theorem elapse_input : w.elapse.input = w.input := rfl
@[simp] theorem elapse_caps : w.elapse.caps = w.caps := rfl
@[simp] theorem elapse_trace : w.elapse.trace = w.trace := rfl
@[simp] theorem elapse_lags : w.elapse.lags = w.lags.tail := rfl
@[simp] theorem elapse_clock : w.elapse.clock = w.clock + w.lags.headD 0 := rfl

@[simp] theorem millis_fst : (millis w).1 = w.clock % 2 ^ 32 := rfl
@[simp] theorem millis_output : (millis w).2.output = w.output := rfl
@[simp] theorem millis_input : (millis w).2.input = w.input := rfl
@[simp] theorem millis_caps : (millis w).2.caps = w.caps := rfl
@[simp] theorem millis_lags : (millis w).2.lags = w.lags := rfl
@[simp] theorem millis_clock : (millis w).2.clock = w.clock := rfl
@[simp] theorem millis_trace :
    (millis w).2.trace = w.trace ++ [(w.clock, Event.millis (w.clock % 2 ^ 32))] := rfl

@[simp] theorem delay_output (ms : Nat) : (delay ms w).output = w.output := rfl
@[simp] theorem delay_input (ms : Nat) : (delay ms w).input = w.input := rfl
@[simp] theorem delay_caps (ms : Nat) : (delay ms w).caps = w.caps := rfl
@[simp] theorem delay_lags (ms : Nat) : (delay ms w).lags = w.lags := rfl
@[simp] theorem delay_clock (ms : Nat) : (delay ms w).clock = w.clock + ms := rfl
@[simp] theorem delay_trace (ms : Nat) :
    (delay ms w).trace = w.trace ++ [(w.clock, Event.delay ms)] := rfl

@[simp] theorem digitalWrite_output (p : Int) (l : Bool) :
    (digitalWrite p l w).output = w.output := rfl
@[simp] theorem digitalWrite_input (p : Int) (l : Bool) :
    (digitalWrite p l w).input = w.input := rfl
@[simp] theorem digitalWrite_caps (p : Int) (l : Bool) :
    (digitalWrite p l w).caps = w.caps := rfl
@[simp] theorem digitalWrite_lags (p : Int) (l : Bool) :
    (digitalWrite p l w).lags = w.lags := rfl
@[simp] theorem digitalWrite_clock (p : Int) (l : Bool) :
    (digitalWrite p l w).clock = w.clock := rfl
@[simp] theorem digitalWrite_trace (p : Int) (l : Bool) :
    (digitalWrite p l w).trace = w.trace ++ [(w.clock, Event.digitalWrite p l)] := rfl

@[simp] theorem flush_output : (flush w).output = w.output := rfl
@[simp] theorem flush_input : (flush w).input = w.input := rfl
@[simp] theorem flush_caps : (flush w).caps = w.caps := rfl
@[simp] theorem flush_lags : (flush w).lags = w.lags.tail := rfl
@[simp] theorem flush_clock : (flush w).clock = w.clock + w.lags.headD 0 := rfl
@[simp] theorem flush_trace : (flush w).trace = w.trace ++ [(w.clock, Event.flush)] := rfl

@[simp] theorem write_fst (bs : List Nat) : (write bs w).1 = accepted w.caps bs.length := rfl
@[simp] theorem write_output (bs : List Nat) :
    (write bs w).2.output = w.output ++ bs.take (accepted w.caps bs.length) := rfl
@[simp] theorem write_input (bs : List Nat) : (write bs w).2.input = w.input := rfl
@[simp] theorem write_caps (bs : List Nat) : (write bs w).2.caps = w.caps.tail := rfl
@[simp] theorem write_lags (bs : List Nat) : (write bs w).2.lags = w.lags.tail := rfl
@[simp] theorem write_clock (bs : List Nat) :
    (write bs w).2.clock = w.clock + w.lags.headD 0 := rfl
@[simp] theorem write_trace (bs : List Nat) :
    (write bs w).2.trace
      = w.trace ++ [(w.clock, Event.write bs (accepted w.caps bs.length))] := rfl

@[simp] theorem readBytes_fst (n : Nat) : (readBytes n w).1 = w.input.take n := rfl
@[simp] theorem readBytes_output (n : Nat) : (readBytes n w).2.output = w.output := rfl
@[simp] theorem readBytes_input (n : Nat) : (readBytes n w).2.input = w.input.drop n := rfl
@[simp] theorem readBytes_caps (n : Nat) : (readBytes n w).2.caps = w.caps := rfl
@[simp] theorem readBytes_lags (n : Nat) : (readBytes n w).2.lags = w.lags.tail := rfl
@[simp] theorem readBytes_clock (n : Nat) :
    (readBytes n w).2.clock = w.clock + w.lags.headD 0 := rfl
@[simp] theorem readBytes_trace (n : Nat) :
    (readBytes n w).2.trace
      = w.trace ++ [(w.clock, Event.readBytes n (w.input.take n))] := rfl

end Primitives

/-! ## Checksum arithmetic -/

theorem sub16_lt (crc b : Nat) : sub16 crc b < 65536 := by
  unfold sub16; omega

theorem sub16_add (crc b : Nat) (hb : b < 256) :
    (sub16 crc b + b) % 65536 = crc % 65536 := by
  unfold sub16; omega

theorem foldl_sub16_lt (l : List Nat) (acc : Nat) (h : acc < 65536) :
    l.foldl sub16 acc < 65536 := by
  induction l generalizing acc with
  | nil => simpa using h
  | cons b l ih => exact ih _ (sub16_lt acc b)

theorem foldl_sub16_add (l : List Nat) (acc : Nat) (hl : allBytes l = true) :
    (l.foldl sub16 acc + l.sum) % 65536 = acc % 65536 := by
  induction l generalizing acc with
  | nil => simp
  | cons b l ih =>
    simp only [allBytes, List.all_cons, Bool.and_eq_true, decide_eq_true_eq] at hl
    have h1 := ih (sub16 acc b) (by simpa [allBytes] using hl.2)
    have h2 := sub16_add acc b hl.1
    simp only [List.foldl_cons, List.sum_cons]
    omega

theorem sum_le_of_allBytes (l : List Nat) (hl : allBytes l = true) :
    l.sum ≤ 255 * l.length := by
  induction l with
  | nil => simp
  | cons b l ih =>
    simp only [allBytes, List.all_cons, Bool.and_eq_true, decide_eq_true_eq] at hl
    have := ih (by simpa [allBytes] using hl.2)
    simp only [List.sum_cons, List.length_cons]
    omega

theorem allBytes_take (l : List Nat) (n : Nat) (hl : allBytes l = true) :
    allBytes (l.take n) = true := by
  simp only [allBytes, List.all_eq_true, decide_eq_true_eq] at hl ⊢
  intro b hb
  exact hl b (List.mem_of_mem_take hb)

theorem beValue_u16Bytes_swap (v : Nat) (hv : v < 65536) :
    beValue (u16Bytes (swap v)) = v := by
  have h1 : v / 256 % 256 = v / 256 := Nat.mod_eq_of_lt (by omega)
  have h2 : (v % 256 * 256 + v / 256) % 256 = v / 256 := by omega
  have h3 : (v % 256 * 256 + v / 256) / 256 = v % 256 := by omega
  have h4 : v % 256 % 256 = v % 256 := by omega
  simp only [beValue, u16Bytes, swap, List.getD_cons_zero, List.getD_cons_succ, h1, h2, h3, h4]
  omega

/-- The two-byte negated sum that `genCrc` computes before swapping, on valid input. -/
theorem genCrc_valid (b len : Nat) (data : List Nat) (hb : b < 256) (hlen : len < 31)
    (hd : len ≤ data.length) (hbytes : allBytes data = true) :
    genCrc b len (some data) = swap ((2 ^ 16 - (b + len + (data.take len).sum)) % 2 ^ 16) := by
  have hcond : len < 31 ∧ (len = 0 ∨ (some data).isSome = true) := ⟨hlen, Or.inr rfl⟩
  simp only [genCrc, hcond, and_self, if_true, Option.getD_some]
  congr 1
  have ht := allBytes_take data len hbytes
  have h1 := foldl_sub16_add (data.take len) (sub16 (sub16 0 b) len) ht
  have h2 := foldl_sub16_lt (data.take len) (sub16 (sub16 0 b) len) (sub16_lt _ _)
  have h3 := sum_le_of_allBytes (data.take len) ht
  have h4 : (data.take len).length = len := by simp [hd]
  rw [h4] at h3
  have h5 := sub16_add (sub16 0 b) len (by omega)
  have h6 := sub16_add 0 b hb
  have h7 := sub16_lt (sub16 0 b) len
  omega

/-! ## Parts of the world that the phases of `execute` leave alone -/

@[simp] theorem spacing_output (self : JbdBms) (w : World) :
    (spacing self w).output = w.output := by
  simp only [spacing]; split <;> simp

@[simp] theorem spacing_input (self : JbdBms) (w : World) :
    (spacing self w).input = w.input := by
  simp only [spacing]; split <;> simp

@[simp] theorem spacing_caps (self : JbdBms) (w : World) :
    (spacing self w).caps = w.caps := by
  simp only [spacing]; split <;> simp

@[simp] theorem readPayload_output (n : Nat) (result : Option (List Nat)) (w : World) :
    (readPayload n result w).2.2.output = w.output := by
  unfold readPayload
  split
  · rfl
  · cases result <;> simp

@[simp] theorem receive_output (result : Option (List Nat)) (w : World) :
    (receive result w).2.2.output = w.output := by
  unfold receive
  simp only []
  repeat (first | split | simp)

theorem accepted_full (caps : List Nat) (n : Nat) (ns : List Nat)
    (h : acceptsInFull caps (n :: ns) = true) :
    accepted caps n = n ∧ acceptsInFull caps.tail ns = true := by
  cases caps with
  | nil => exact ⟨rfl, by simp [acceptsInFull]⟩
  | cons c cs =>
    simp only [acceptsInFull, Bool.and_eq_true, decide_eq_true_eq] at h
    exact ⟨by simp [accepted, h.1], by simpa using h.2⟩

/-- When the stream takes all four writes in full, the request goes out whole. -/
theorem transmit_full (h : request_header_t) (command : Option (List Nat)) (crc : Nat)
    (w : World) (hlen : h.length ≤ (command.getD []).length)
    (hfull : acceptsInFull w.caps [4, h.length, 2, 1] = true) :
    (transmit h command crc w).1 = true
    ∧ (transmit h command crc w).2.output
        = w.output ++ (h.bytes ++ (command.getD []).take h.length ++ u16Bytes crc ++ [0x77]) := by
  obtain ⟨a1, f1⟩ := accepted_full _ _ _ hfull
  obtain ⟨a2, f2⟩ := accepted_full _ _ _ f1
  obtain ⟨a3, f3⟩ := accepted_full _ _ _ f2
  obtain ⟨a4, -⟩ := accepted_full _ _ _ f3
  have l2 : ((command.getD []).take h.length).length = h.length := by simp [hlen]
  have e1 : accepted w.caps h.bytes.length = 4 := a1
  have e2 : accepted w.caps.tail ((command.getD []).take h.length).length = h.length := by
    rw [l2]; exact a2
  have e3 : accepted w.caps.tail.tail (u16Bytes crc).length = 2 := a3
  have e4 : accepted w.caps.tail.tail.tail [0x77].length = 1 := a4
  have t1 : h.bytes.take 4 = h.bytes := rfl
  have t3 : (u16Bytes crc).take 2 = u16Bytes crc := rfl
  simp only [transmit, write_fst, write_output, write_caps, e1, e2, e3, e4, t1, t3, ne_eq,
    not_true_eq_false, if_false, eq_self_iff_true, List.take_length, beq_self_eq_true,
    List.append_assoc, true_and]
  rw [List.take_of_length_le (le_of_eq l2)]
  rfl

/-! ## The response phase as a function of the bytes on the stream -/

theorem getD_take_of_lt (l : List Nat) (i n : Nat) (h : i < n) :
    (l.take n).getD i 0 = l.getD i 0 := by
  simp [List.getD_eq_getElem?_getD, List.getElem?_take, h]

theorem getD_drop (l : List Nat) (i n : Nat) : (l.drop n).getD i 0 = l.getD (n + i) 0 := by
  simp [List.getD_eq_getElem?_getD]

theorem length_take_ne (l : List Nat) (n : Nat) : (l.take n).length ≠ n ↔ l.length < n := by
  simp [List.length_take]

theorem genCrc_zero (b : Nat) (d d' : Option (List Nat)) : genCrc b 0 d = genCrc b 0 d' := by
  simp [genCrc]

theorem genCrc_store (b len : Nat) (mem got : List Nat) (h : got.length = len) :
    genCrc b len (some (store mem got)) = genCrc b len (some got) := by
  simp only [genCrc, store, Option.getD_some, Option.isSome_some]
  rw [List.take_left' h, List.take_of_length_le (le_of_eq h)]

/-- The checksum that `isValid` computes over the result buffer is the checksum of the
payload that was just received. -/
theorem readPayload_spec (n : Nat) (result : Option (List Nat)) (w : World) :
    ((readPayload n result w).1 = true ↔ (n = 0 ∨ (result.isSome = true ∧ n ≤ w.input.length)))
    ∧ ((readPayload n result w).1 = true →
        (readPayload n result w).2.2.input = w.input.drop n
        ∧ ((readPayload n result w).2.1.getD []).take n = w.input.take n
        ∧ ∀ b, genCrc b n (readPayload n result w).2.1 = genCrc b n (some (w.input.take n))) := by
  unfold readPayload
  by_cases h0 : n = 0
  · subst h0
    simp only [if_true, true_or, iff_true, List.drop_zero, true_and, forall_const,
      List.take_zero]
    intro b; exact genCrc_zero _ _ _
  · cases result with
    | none => simp [h0]
    | some mem =>
      simp only [h0, if_false, readBytes_fst, readBytes_input, beq_iff_eq, false_or,
        Option.isSome_some, true_and, List.length_take, min_eq_left_iff]
      intro hle
      have hl : (w.input.take n).length = n := by simp [hle]
      exact ⟨by simp only [Option.getD_some, store]; exact List.take_left' hl,
        fun b => genCrc_store b n mem _ hl⟩

/-- The conditions under which the response phase succeeds, read off the stream. -/
theorem receive_spec (result : Option (List Nat)) (w : World) :
    ((receive result w).1 = true ↔
      (w.input.getD 0 0 = 0xdd ∧ declaredLength w.input ≤ 64
        ∧ (declaredLength w.input = 0 ∨ result.isSome = true)
        ∧ declaredLength w.input + 7 ≤ w.input.length
        ∧ genCrc (w.input.getD 2 0) (declaredLength w.input) (some (payloadOf w.input))
            = u16OfBytes (w.input.getD (4 + declaredLength w.input) 0)
                (w.input.getD (5 + declaredLength w.input) 0)
        ∧ w.input.getD 2 0 = 0))
    ∧ ((receive result w).1 = true →
        ((receive result w).2.1.getD []).take (declaredLength w.input) = payloadOf w.input
        ∧ (receive result w).2.2.input = w.input.drop (declaredLength w.input + 7)) := by
  have hp := readPayload_spec (declaredLength w.input) result (readBytes 4 w).2
  simp only [readBytes_input] at hp
  obtain ⟨hp1, hp2⟩ := hp
  have hdr : response_header_t.ofBytes (w.input.take 4)
      = ⟨w.input.getD 0 0, w.input.getD 1 0, w.input.getD 2 0, declaredLength w.input⟩ := by
    simp [response_header_t.ofBytes, getD_take_of_lt, declaredLength]
  unfold receive
  simp only [readBytes_fst, readBytes_input, hdr, length_take_ne]
  by_cases h4 : w.input.length < 4
  · simp only [h4, if_true]
    constructor
    · constructor
      · intro h; cases h
      · intro h; omega
    · intro h; cases h
  simp only [h4, if_false]
  by_cases hs : w.input.getD 0 0 = 0xdd ∧ declaredLength w.input ≤ 64
  swap
  · rw [if_pos hs]
    constructor
    · constructor
      · intro h; cases h
      · intro h; exact absurd ⟨h.1, h.2.1⟩ hs
    · intro h; cases h
  rw [if_neg (not_not_intro hs)]
  by_cases hrp : (readPayload (declaredLength w.input) result (readBytes 4 w).2).1 = true
  swap
  · simp only [Bool.not_eq_true] at hrp
    simp only [hrp, if_true]
    constructor
    · constructor
      · intro h; cases h
      · intro h
        have := hp1.2 (by
          rcases h.2.2.1 with h0 | h1
          · exact Or.inl h0
          · exact Or.inr ⟨h1, by simp only [List.length_drop]; omega⟩)
        simp [hrp] at this
    · intro h; cases h
  obtain ⟨hin, htake, hcrc⟩ := hp2 hrp
  have hcond := hp1.1 hrp
  simp only [List.length_drop] at hcond
  simp only [hrp, Bool.true_eq_false, if_false, hin, List.drop_drop]
  by_cases h2 : (List.drop (4 + declaredLength w.input) w.input).length < 2
  · simp only [h2, if_true]
    simp only [List.length_drop] at h2
    constructor
    · constructor
      · intro h; cases h
      · intro h; omega
    · intro h; cases h
  simp only [h2, if_false]
  by_cases h1 : (List.drop (4 + declaredLength w.input + 2) w.input).length < 1
  · simp only [h1, if_true]
    simp only [List.length_drop] at h1
    constructor
    · constructor
      · intro h; cases h
      · intro h; omega
    · intro h; cases h
  simp only [h1, if_false]
  simp only [List.length_drop] at h1 h2
  have hlen : declaredLength w.input + 7 ≤ w.input.length := by omega
  have g0 : (List.take 2 (List.drop (4 + declaredLength w.input) w.input)).getD 0 0
      = w.input.getD (4 + declaredLength w.input) 0 := by
    rw [getD_take_of_lt _ _ _ (by omega), getD_drop]; rfl
  have g1 : (List.take 2 (List.drop (4 + declaredLength w.input) w.input)).getD 1 0
      = w.input.getD (5 + declaredLength w.input) 0 := by
    rw [getD_take_of_lt _ _ _ (by omega), getD_drop]; congr 1; omega
  simp only [g0, g1, isValid, genResponseCrc, hcrc, Bool.and_eq_true, beq_iff_eq, payloadOf]
  constructor
  · constructor
    · intro h
      refine ⟨hs.1, hs.2, ?_, hlen, h.1, h.2⟩
      rcases hcond with h0 | h1
      · exact Or.inl h0
      · exact Or.inr h1.1
    · intro h; exact ⟨h.2.2.2.2.1, h.2.2.2.2.2⟩
  · intro _
    refine ⟨htake, ?_⟩
    simp only [readBytes_input, hin, List.drop_drop]
    congr 1; omega

/-! ## `execute` in terms of its phases -/

@[simp] theorem txWorld_output (self : JbdBms) (w : World) :
    (txWorld self w).output = w.output := by
  simp only [txWorld]; split <;> simp

@[simp] theorem txWorld_input (self : JbdBms) (w : World) :
    (txWorld self w).input = w.input := by
  simp only [txWorld]; split <;> simp

@[simp] theorem txWorld_caps (self : JbdBms) (w : World) :
    (txWorld self w).caps = w.caps := by
  simp only [txWorld]; split <;> simp

@[simp] theorem transmit_input (h : request_header_t) (command : Option (List Nat))
    (crc : Nat) (w : World) : (transmit h command crc w).2.input = w.input := by
  simp only [transmit]
  repeat (first | split | simp)

@[simp] theorem rxWorld_input (self : JbdBms) (h : request_header_t)
    (command : Option (List Nat)) (w : World) :
    (rxWorld self h command w).input = w.input := by
  simp only [rxWorld]; split <;> simp

theorem rxWorld_output (self : JbdBms) (h : request_header_t)
    (command : Option (List Nat)) (w : World) :
    (rxWorld self h command w).output
      = (transmit (prepareCmd h command).2.1 command (prepareCmd h command).2.2
          (txWorld self w)).2.output := by
  simp only [rxWorld]; split <;> simp

/-- The body of `execute` with the two intermediate worlds named. -/
theorem execute_eq (self : JbdBms) (h : request_header_t) (command result : Option (List Nat))
    (w : World) :
    execute self h command result w
      = if (prepareCmd h command).1 = false then
          ⟨false, self, (prepareCmd h command).2.1, result, w⟩
        else
          ⟨(if (transmit (prepareCmd h command).2.1 command (prepareCmd h command).2.2
                (txWorld self w)).1 then receive result (rxWorld self h command w)
              else (false, result, rxWorld self h command w)).1,
            { self with _prev := (millis
              (if (transmit (prepareCmd h command).2.1 command (prepareCmd h command).2.2
                (txWorld self w)).1 then receive result (rxWorld self h command w)
              else (false, result, rxWorld self h command w)).2.2).1 },
            (prepareCmd h command).2.1,
            (if (transmit (prepareCmd h command).2.1 command (prepareCmd h command).2.2
                (txWorld self w)).1 then receive result (rxWorld self h command w)
              else (false, result, rxWorld self h command w)).2.1,
            (millis
              (if (transmit (prepareCmd h command).2.1 command (prepareCmd h command).2.2
                (txWorld self w)).1 then receive result (rxWorld self h command w)
              else (false, result, rxWorld self h command w)).2.2).2⟩ := rfl

/-- Return value of `execute`: all three phases succeed. -/
theorem execute_rc (self : JbdBms) (h : request_header_t) (command result : Option (List Nat))
    (w : World) :
    (execute self h command result w).rc
      = ((prepareCmd h command).1
          && (transmit (prepareCmd h command).2.1 command (prepareCmd h command).2.2
                (txWorld self w)).1
          && (receive result (rxWorld self h command w)).1) := by
  rw [execute_eq]
  by_cases hp : (prepareCmd h command).1 = false
  · simp [hp]
  · rw [if_neg hp]
    simp only [Bool.not_eq_false] at hp
    by_cases ht : (transmit (prepareCmd h command).2.1 command (prepareCmd h command).2.2
        (txWorld self w)).1 = true
    · simp [hp, ht]
    · simp only [Bool.not_eq_true] at ht
      simp [hp, ht]

/-- The three phases succeed when `execute` returns true. -/
theorem execute_rc_true (self : JbdBms) (h : request_header_t)
    (command result : Option (List Nat)) (w : World)
    (hrc : (execute self h command result w).rc = true) :
    (prepareCmd h command).1 = true
    ∧ (transmit (prepareCmd h command).2.1 command (prepareCmd h command).2.2
          (txWorld self w)).1 = true
    ∧ (receive result (rxWorld self h command w)).1 = true := by
  rw [execute_rc] at hrc
  simp only [Bool.and_eq_true] at hrc
  exact ⟨hrc.1.1, hrc.1.2, hrc.2⟩

/-- Result buffer after `execute`: touched by the response phase only. -/
theorem execute_result (self : JbdBms) (h : request_header_t)
    (command result : Option (List Nat)) (w : World)
    (hrc : (execute self h command result w).rc = true) :
    (execute self h command result w).result
      = (receive result (rxWorld self h command w)).2.1 := by
  obtain ⟨hp, ht, -⟩ := execute_rc_true self h command result w hrc
  rw [execute_eq]
  simp [hp, ht]

/-- Bytes written by `execute`: those of the transmit phase. -/
theorem execute_output (self : JbdBms) (h : request_header_t)
    (command result : Option (List Nat)) (w : World)
    (hp : (prepareCmd h command).1 = true) :
    (execute self h command result w).world.output
      = (transmit (prepareCmd h command).2.1 command (prepareCmd h command).2.2
          (txWorld self w)).2.output := by
  rw [execute_eq, ← rxWorld_output]
  by_cases ht : (transmit (prepareCmd h command).2.1 command (prepareCmd h command).2.2
      (txWorld self w)).1 = true
  · simp [hp, ht]
  · simp only [Bool.not_eq_true] at ht
    simp [hp, ht]

theorem swap_eq_zero (v : Nat) (hv : v < 65536) : swap v = 0 ↔ v = 0 := by
  unfold swap; omega

theorem u16Bytes_swap (v : Nat) (hv : v < 65536) : u16Bytes (swap v) = [v / 256, v % 256] := by
  have h1 : v / 256 % 256 = v / 256 := Nat.mod_eq_of_lt (by omega)
  have h2 : (v % 256 * 256 + v / 256) % 256 = v / 256 := by omega
  have h3 : (v % 256 * 256 + v / 256) / 256 = v % 256 := by omega
  have h4 : v % 256 % 256 = v % 256 := by omega
  simp only [u16Bytes, swap, h1, h2, h3, h4]

/-! ## Requests -/

theorem prepareCmd_valid (start d c : Nat) (p : List Nat) (hc : c < 256)
    (hp : allBytes p = true) (hlen : p.length < 31) (hne : ¬ (c = 0 ∧ p.length = 0)) :
    prepareCmd ⟨start, d, c, p.length⟩ (some p)
      = (true, ⟨0xdd, d, c, p.length⟩, swap (negSum c p)) := by
  have hg := genCrc_valid c p.length p hc hlen (le_refl _) hp
  rw [List.take_of_length_le (le_refl _)] at hg
  have hs := sum_le_of_allBytes p hp
  have hv : negSum c p < 65536 := by unfold negSum; omega
  have hz : negSum c p ≠ 0 := by unfold negSum; omega
  have hnz : swap (negSum c p) ≠ 0 := fun h => hz ((swap_eq_zero _ hv).1 h)
  have hg2 : genCrc c p.length (some p) = swap (negSum c p) := hg
  have hb : (swap (negSum c p) != 0) = true := by simpa using hnz
  simp only [prepareCmd, genRequestCrc, hg2, hb]

/-- C1: for a direction byte d, a command byte c and a payload p of fewer than 31 bytes
(command 0 with empty payload apart), when the stream accepts the four writes in full,
execute appends to the bytes written exactly 0xDD, d, c, |p|, the payload, the high and
the low byte of (2^16 - (c + |p| + sum p)) mod 2^16, and 0x77: |p| + 7 bytes. -/
theorem execute_writes_request_frame (self : JbdBms) (start d c : Nat) (p : List Nat)
    (result : Option (List Nat)) (w : World)
    (hc : c < 256) (hp : allBytes p = true) (hlen : p.length < 31)
    (hne : ¬ (c = 0 ∧ p.length = 0))
    (hfull : acceptsInFull w.caps [4, p.length, 2, 1] = true) :
    (execute self ⟨start, d, c, p.length⟩ (some p) result w).world.output
        = w.output ++ ([0xdd, d, c, p.length] ++ p
            ++ [(2 ^ 16 - (c + p.length + p.sum)) % 2 ^ 16 / 256,
                (2 ^ 16 - (c + p.length + p.sum)) % 2 ^ 16 % 256]
            ++ [0x77])
    ∧ ([0xdd, d, c, p.length] ++ p
            ++ [(2 ^ 16 - (c + p.length + p.sum)) % 2 ^ 16 / 256,
                (2 ^ 16 - (c + p.length + p.sum)) % 2 ^ 16 % 256]
            ++ [0x77]).length = p.length + 7 := by
  have hprep := prepareCmd_valid start d c p hc hp hlen hne
  have hv : negSum c p < 65536 := by unfold negSum; omega
  refine ⟨?_, by simp⟩
  rw [execute_output _ _ _ _ _ (by rw [hprep]), hprep]
  have ht := (transmit_full ⟨0xdd, d, c, p.length⟩ (some p) (swap (negSum c p))
    (txWorld self w) (le_refl _) (by simpa using hfull)).2
  rw [ht, u16Bytes_swap _ hv]
  simp [request_header_t.bytes, negSum]

/-- Witness of C1: the mosfet request E1 with payload 00 03. -/
theorem execute_writes_request_frame_witness :
    (0xe1 < 256 ∧ allBytes [0, 3] = true ∧ [0, 3].length < 31
      ∧ ¬ (0xe1 = 0 ∧ [0, 3].length = 0)
      ∧ acceptsInFull (World.fresh 0 []).caps [4, [0, 3].length, 2, 1] = true)
    ∧ (execute ⟨0, 0, -1⟩ ⟨0, 0x5a, 0xe1, 2⟩ (some [0, 3]) none (World.fresh 0 [])).world.output
        = [0xdd, 0x5a, 0xe1, 2, 0, 3, 0xff, 0x1a, 0x77] :=
  ⟨by decide,
    (execute_writes_request_frame ⟨0, 0, -1⟩ 0 0x5a 0xe1 [0, 3] none (World.fresh 0 [])
      (by decide) (by decide) (by decide) (by decide) (by decide)).1⟩

/-! ## Checksum -/

/-- C2: for a seed byte b, a length len below 31 and a data region holding at least len
bytes, the two bytes of genCrc in wire order (the object representation of the returned
value), read big-endian, are (2^16 - (b + len + sum of data[0..len))) mod 2^16, so that
b + len + sum + checksum is 0 modulo 2^16; genRequestCrc seeds the same function with the
command byte and genResponseCrc with the return code. -/
theorem genCrc_checksum_formula (b len : Nat) (data : List Nat) (hb : b < 256)
    (hlen : len < 31) (hd : len ≤ data.length) (hbytes : allBytes data = true) :
    beValue (u16Bytes (genCrc b len (some data)))
        = (2 ^ 16 - (b + len + (data.take len).sum)) % 2 ^ 16
    ∧ (b + len + (data.take len).sum + beValue (u16Bytes (genCrc b len (some data)))) % 2 ^ 16
        = 0
    ∧ (∀ (h : request_header_t) (d : Option (List Nat)),
        genRequestCrc h d = genCrc h.command h.length d)
    ∧ (∀ (h : response_header_t) (d : Option (List Nat)),
        genResponseCrc h d = genCrc h.returncode h.length d) := by
  have hg := genCrc_valid b len data hb hlen hd hbytes
  have ht := allBytes_take data len hbytes
  have hs := sum_le_of_allBytes (data.take len) ht
  have hl : (data.take len).length = len := by simp [hd]
  rw [hl] at hs
  have hv : (2 ^ 16 - (b + len + (data.take len).sum)) % 2 ^ 16 < 65536 := by omega
  rw [hg, beValue_u16Bytes_swap _ hv]
  refine ⟨rfl, by omega, fun _ _ => rfl, fun _ _ => rfl⟩

/-- Witness of C2: seed 3 and the data bytes 1, 2. -/
theorem genCrc_checksum_formula_witness :
    (3 < 256 ∧ 2 < 31 ∧ 2 ≤ [1, 2].length ∧ allBytes [1, 2] = true)
    ∧ beValue (u16Bytes (genCrc 3 2 (some [1, 2]))) = 65528 :=
  ⟨by decide,
    (genCrc_checksum_formula 3 2 [1, 2] (by decide) (by decide) (by decide) (by decide)).1⟩

/-! ## Responses -/

theorem getD_add_length (p t : List Nat) (i : Nat) :
    (p ++ t).getD (p.length + i) 0 = t.getD i 0 := by
  rw [← getD_drop, List.drop_left]

/-- Where the parts of a response frame sit on the stream. -/
theorem responseFrame_layout (a0 a1 a2 : Nat) (p : List Nat) (hi lo st : Nat)
    (rest : List Nat) :
    (responseFrame a0 a1 a2 p hi lo st ++ rest).getD 0 0 = a0
    ∧ (responseFrame a0 a1 a2 p hi lo st ++ rest).getD 2 0 = a2
    ∧ declaredLength (responseFrame a0 a1 a2 p hi lo st ++ rest) = p.length
    ∧ payloadOf (responseFrame a0 a1 a2 p hi lo st ++ rest) = p
    ∧ (responseFrame a0 a1 a2 p hi lo st ++ rest).getD (4 + p.length) 0 = hi
    ∧ (responseFrame a0 a1 a2 p hi lo st ++ rest).getD (5 + p.length) 0 = lo
    ∧ p.length + 7 ≤ (responseFrame a0 a1 a2 p hi lo st ++ rest).length := by
  have e : responseFrame a0 a1 a2 p hi lo st ++ rest
      = [a0, a1, a2, p.length] ++ (p ++ ([hi, lo, st] ++ rest)) := by
    simp [responseFrame]
  have hL : declaredLength (responseFrame a0 a1 a2 p hi lo st ++ rest) = p.length := by
    rw [e]; rfl
  refine ⟨by rw [e]; rfl, by rw [e]; rfl, hL, ?_, ?_, ?_, ?_⟩
  · rw [payloadOf, hL, e]
    show List.take p.length (p ++ ([hi, lo, st] ++ rest)) = p
    exact List.take_left' rfl
  · rw [← getD_drop, e]
    show (p ++ ([hi, lo, st] ++ rest)).getD (p.length + 0) 0 = hi
    rw [getD_add_length]; rfl
  · have h5 : 5 + p.length = 4 + (p.length + 1) := by omega
    rw [h5, ← getD_drop, e]
    show (p ++ ([hi, lo, st] ++ rest)).getD (p.length + 1) 0 = lo
    rw [getD_add_length]; rfl
  · rw [e]; simp only [List.length_append, List.length_cons, List.length_nil]; omega

theorem u16OfBytes_swap (v : Nat) (hv : v < 65536) : u16OfBytes (v / 256) (v % 256) = swap v := by
  have h1 : v / 256 % 256 = v / 256 := Nat.mod_eq_of_lt (by omega)
  simp only [u16OfBytes, swap, h1]
  omega

/-- C3: when the request is encoded and written in full and the stream then delivers the
frame 0xDD, c, 0x00, |p|, p, the big-endian checksum of return code 0, length |p| and p,
0x77, with |p| < 31 and a result buffer provided, execute returns true and the first |p|
bytes of the result buffer are p. -/
theorem execute_round_trip (self : JbdBms) (hd : request_header_t)
    (cmd : Option (List Nat)) (mem p rest : List Nat) (w : World)
    (hprep : (prepareCmd hd cmd).1 = true)
    (hcmd : hd.length ≤ (cmd.getD []).length)
    (hfull : acceptsInFull w.caps [4, hd.length, 2, 1] = true)
    (hp : allBytes p = true) (hlen : p.length < 31)
    (hin : w.input
      = responseFrame 0xdd hd.command 0 p (negSum 0 p / 256) (negSum 0 p % 256) 0x77 ++ rest) :
    (execute self hd cmd (some mem) w).rc = true
    ∧ ((execute self hd cmd (some mem) w).result.getD []).take p.length = p := by
  have ht := (transmit_full (prepareCmd hd cmd).2.1 cmd (prepareCmd hd cmd).2.2
    (txWorld self w) hcmd (by simpa using hfull)).1
  obtain ⟨h0, h2, hL, hpay, hhi, hlo, hlen7⟩ := responseFrame_layout 0xdd hd.command 0 p
    (negSum 0 p / 256) (negSum 0 p % 256) 0x77 rest
  rw [← hin] at h0 h2 hL hpay hhi hlo hlen7
  have hs := sum_le_of_allBytes p hp
  have hv : negSum 0 p < 65536 := by unfold negSum; omega
  have hg : genCrc 0 p.length (some p) = swap (negSum 0 p) := by
    have := genCrc_valid 0 p.length p (by omega) hlen (le_refl _) hp
    rw [List.take_of_length_le (le_refl _)] at this
    exact this
  have hspec := receive_spec (some mem) (rxWorld self hd cmd w)
  simp only [rxWorld_input] at hspec
  have hrecv : (receive (some mem) (rxWorld self hd cmd w)).1 = true := by
    refine hspec.1.2 ⟨h0, by omega, Or.inr rfl, by omega, ?_, h2⟩
    rw [h2, hL, hpay, hhi, hlo, hg, u16OfBytes_swap _ hv]
  have hrc : (execute self hd cmd (some mem) w).rc = true := by
    rw [execute_rc, hprep, ht, hrecv]; rfl
  refine ⟨hrc, ?_⟩
  rw [execute_result _ _ _ _ _ hrc]
  have := (hspec.2 hrecv).1
  rw [hL, hpay] at this
  exact this

/-- Witness of C3: a cell-voltage response with one cell of 0x0CE4 mV. -/
theorem execute_round_trip_witness :
    ((prepareCmd ⟨0, 0xa5, 4, 0⟩ none).1 = true
      ∧ 0 ≤ ((none : Option (List Nat)).getD []).length
      ∧ acceptsInFull (World.fresh 0 [0xdd, 4, 0, 2, 0x0c, 0xe4, 0xff, 0x0e, 0x77]).caps
          [4, 0, 2, 1] = true
      ∧ allBytes [0x0c, 0xe4] = true ∧ [0x0c, 0xe4].length < 31)
    ∧ (execute ⟨0, 0, -1⟩ ⟨0, 0xa5, 4, 0⟩ none (some [0, 0, 0, 0])
        (World.fresh 0 [0xdd, 4, 0, 2, 0x0c, 0xe4, 0xff, 0x0e, 0x77])).rc = true
    ∧ ((execute ⟨0, 0, -1⟩ ⟨0, 0xa5, 4, 0⟩ none (some [0, 0, 0, 0])
        (World.fresh 0 [0xdd, 4, 0, 2, 0x0c, 0xe4, 0xff, 0x0e, 0x77])).result.getD []).take 2
        = [0x0c, 0xe4] :=
  ⟨by decide,
    execute_round_trip ⟨0, 0, -1⟩ ⟨0, 0xa5, 4, 0⟩ none [0, 0, 0, 0] [0x0c, 0xe4] []
      (World.fresh 0 [0xdd, 4, 0, 2, 0x0c, 0xe4, 0xff, 0x0e, 0x77])
      (by decide) (by decide) (by decide) (by decide) (by decide) (by decide)⟩

theorem getD_lt_of_allBytes (l : List Nat) (i : Nat) (hl : allBytes l = true) :
    l.getD i 0 < 256 := by
  simp only [allBytes, List.all_eq_true, decide_eq_true_eq] at hl
  rw [List.getD_eq_getElem?_getD]
  cases h : l[i]? with
  | none => simp
  | some b => exact hl b (List.getElem?_mem h)

theorem allBytes_drop (l : List Nat) (n : Nat) (hl : allBytes l = true) :
    allBytes (l.drop n) = true := by
  simp only [allBytes, List.all_eq_true, decide_eq_true_eq] at hl ⊢
  intro b hb
  exact hl b (List.mem_of_mem_drop hb)

theorem u16Bytes_u16OfBytes (a b : Nat) (ha : a < 256) (hb : b < 256) :
    u16Bytes (u16OfBytes a b) = [a, b] := by
  have h1 : (a + 256 * b) % 256 = a := by omega
  have h2 : (a + 256 * b) / 256 % 256 = b := by omega
  simp only [u16Bytes, u16OfBytes, h1, h2]

theorem take_two_of_le (l : List Nat) (h : 2 ≤ l.length) :
    l.take 2 = [l.getD 0 0, l.getD 1 0] := by
  match l, h with
  | a :: b :: t, _ => rfl

theorem checksumOf_eq (inp : List Nat) (h : declaredLength inp + 6 ≤ inp.length) :
    checksumOf inp
      = [inp.getD (4 + declaredLength inp) 0, inp.getD (5 + declaredLength inp) 0] := by
  have h5 : 5 + declaredLength inp = 4 + declaredLength inp + 1 := by omega
  rw [checksumOf, take_two_of_le _ (by simp only [List.length_drop]; omega), getD_drop,
    getD_drop, h5]
  rfl

/-- What an accepted response looks like, in terms of the bytes the stream delivered. -/
theorem execute_accepts (self : JbdBms) (hd : request_header_t)
    (cmd result : Option (List Nat)) (w : World)
    (hrc : (execute self hd cmd result w).rc = true) :
    w.input.getD 0 0 = 0xdd ∧ declaredLength w.input ≤ 64
    ∧ (declaredLength w.input = 0 ∨ result.isSome = true)
    ∧ declaredLength w.input + 7 ≤ w.input.length
    ∧ genCrc (w.input.getD 2 0) (declaredLength w.input) (some (payloadOf w.input))
        = u16OfBytes (w.input.getD (4 + declaredLength w.input) 0)
            (w.input.getD (5 + declaredLength w.input) 0)
    ∧ w.input.getD 2 0 = 0 := by
  have h := (receive_spec result (rxWorld self hd cmd w)).1.1
    (execute_rc_true self hd cmd result w hrc).2.2
  simpa only [rxWorld_input] using h

theorem payloadOf_length (inp : List Nat) (h : declaredLength inp + 4 ≤ inp.length) :
    (payloadOf inp).length = declaredLength inp := by
  simp only [payloadOf, List.length_take, List.length_drop]; omega

theorem allBytes_payloadOf (inp : List Nat) (h : allBytes inp = true) :
    allBytes (payloadOf inp) = true :=
  allBytes_take _ _ (allBytes_drop _ _ h)

/-- C4: whenever execute returns true, the two checksum bytes found after the payload are
the bytes of genCrc(returncode, length, payload) of that response in wire order; and a
response with declared length below 31 whose checksum bytes, read big-endian, differ from
(2^16 - (returncode + length + sum of payload)) mod 2^16 makes execute return false. -/
theorem execute_checksum_gate (self : JbdBms) (hd : request_header_t)
    (cmd result : Option (List Nat)) (w : World) (hbytes : allBytes w.input = true) :
    ((execute self hd cmd result w).rc = true →
      checksumOf w.input
        = u16Bytes (genCrc (w.input.getD 2 0) (declaredLength w.input)
            (some (payloadOf w.input))))
    ∧ (declaredLength w.input < 31 →
        beValue (checksumOf w.input)
          ≠ (2 ^ 16 - (w.input.getD 2 0 + declaredLength w.input + (payloadOf w.input).sum))
              % 2 ^ 16 →
        (execute self hd cmd result w).rc = false) := by
  have key : (execute self hd cmd result w).rc = true →
      checksumOf w.input
        = u16Bytes (genCrc (w.input.getD 2 0) (declaredLength w.input)
            (some (payloadOf w.input))) := by
    intro hrc
    obtain ⟨-, -, -, hlen, hcrc, -⟩ := execute_accepts self hd cmd result w hrc
    rw [hcrc, checksumOf_eq _ (by omega),
      u16Bytes_u16OfBytes _ _ (getD_lt_of_allBytes _ _ hbytes) (getD_lt_of_allBytes _ _ hbytes)]
  refine ⟨key, fun h31 hne => ?_⟩
  cases hrc : (execute self hd cmd result w).rc with
  | false => rfl
  | true =>
    exfalso
    apply hne
    obtain ⟨-, -, -, hlen, -, -⟩ := execute_accepts self hd cmd result w hrc
    have hpl := payloadOf_length w.input (by omega)
    have hpb := allBytes_payloadOf w.input hbytes
    have hg := genCrc_valid (w.input.getD 2 0) (declaredLength w.input) (payloadOf w.input)
      (getD_lt_of_allBytes _ _ hbytes) h31 (le_of_eq hpl.symm) hpb
    rw [List.take_of_length_le (le_of_eq hpl)] at hg
    have hs := sum_le_of_allBytes _ hpb
    rw [hpl] at hs
    rw [key hrc, hg, beValue_u16Bytes_swap _ (by omega)]

/-- Witness of C4: a response whose checksum is off by one is rejected. -/
theorem execute_checksum_gate_witness :
    allBytes [0xdd, 4, 0, 2, 0x0c, 0xe4, 0xff, 0x0f, 0x77] = true
    ∧ (execute ⟨0, 0, -1⟩ ⟨0, 0xa5, 4, 0⟩ none (some [0, 0, 0, 0])
        (World.fresh 0 [0xdd, 4, 0, 2, 0x0c, 0xe4, 0xff, 0x0f, 0x77])).rc = false :=
  ⟨by decide,
    (execute_checksum_gate ⟨0, 0, -1⟩ ⟨0, 0xa5, 4, 0⟩ none (some [0, 0, 0, 0])
      (World.fresh 0 [0xdd, 4, 0, 2, 0x0c, 0xe4, 0xff, 0x0f, 0x77]) (by decide)).2
      (by decide) (by decide)⟩

/-- C7: a response whose header declares a length above 64 makes execute return false,
whatever the request, the result buffer and the bytes after the header are. -/
theorem execute_rejects_oversized (self : JbdBms) (hd : request_header_t)
    (cmd result : Option (List Nat)) (w : World) (hlen : 64 < declaredLength w.input) :
    (execute self hd cmd result w).rc = false := by
  cases hrc : (execute self hd cmd result w).rc with
  | false => rfl
  | true =>
    have := (execute_accepts self hd cmd result w hrc).2.1
    omega

/-- Witness of C7: length 65 with the checksum 00 00 that a payload of that size would
need to pass the comparison. -/
theorem execute_rejects_oversized_witness :
    64 < declaredLength ([0xdd, 3, 0, 65] ++ List.replicate 65 0 ++ [0, 0, 0x77])
    ∧ (execute ⟨0, 0, -1⟩ ⟨0, 0xa5, 3, 0⟩ none (some (List.replicate 80 0))
        (World.fresh 0 ([0xdd, 3, 0, 65] ++ List.replicate 65 0 ++ [0, 0, 0x77]))).rc = false :=
  ⟨by decide,
    execute_rejects_oversized ⟨0, 0, -1⟩ ⟨0, 0xa5, 3, 0⟩ none (some (List.replicate 80 0))
      (World.fresh 0 ([0xdd, 3, 0, 65] ++ List.replicate 65 0 ++ [0, 0, 0x77])) (by decide)⟩

/-- C8: a response with a nonzero return code makes execute return false, also when
start byte, length, payload, checksum and stop byte are in order; execute returns true
only if the return code is 0. -/
theorem execute_rejects_device_error (self : JbdBms) (hd : request_header_t)
    (cmd result : Option (List Nat)) (w : World) :
    (w.input.getD 2 0 ≠ 0 → (execute self hd cmd result w).rc = false)
    ∧ ((execute self hd cmd result w).rc = true → w.input.getD 2 0 = 0) := by
  refine ⟨fun hne => ?_, fun hrc => (execute_accepts self hd cmd result w hrc).2.2.2.2.2⟩
  cases hrc : (execute self hd cmd result w).rc with
  | false => rfl
  | true => exact absurd (execute_accepts self hd cmd result w hrc).2.2.2.2.2 hne

/-- Witness of C8: return code 0x80 in a frame with matching checksum FF 80. -/
theorem execute_rejects_device_error_witness :
    [0xdd, 3, 0x80, 0, 0xff, 0x80, 0x77].getD 2 0 ≠ 0
    ∧ (execute ⟨0, 0, -1⟩ ⟨0, 0xa5, 3, 0⟩ none (some [0, 0])
        (World.fresh 0 [0xdd, 3, 0x80, 0, 0xff, 0x80, 0x77])).rc = false :=
  ⟨by decide,
    (execute_rejects_device_error ⟨0, 0, -1⟩ ⟨0, 0xa5, 3, 0⟩ none (some [0, 0])
      (World.fresh 0 [0xdd, 3, 0x80, 0, 0xff, 0x80, 0x77])).1 (by decide)⟩

/-! ## Changing one byte of a response -/

theorem getD_set_ne (l : List Nat) (i j v : Nat) (h : i ≠ j) :
    (l.set i v).getD j 0 = l.getD j 0 := by
  simp only [List.getD_eq_getElem?_getD, List.getElem?_set_ne h]

theorem getD_set_self (l : List Nat) (i v : Nat) (h : i < l.length) :
    (l.set i v).getD i 0 = v := by
  simp [List.getD_eq_getElem?_getD, List.getElem?_set_self h]

theorem take_set_of_le (l : List Nat) (n m v : Nat) (h : m ≤ n) :
    (l.set n v).take m = l.take m := by
  induction l generalizing n m with
  | nil => simp
  | cons x xs ih =>
    cases m with
    | zero => simp
    | succ m =>
      cases n with
      | zero => omega
      | succ n => simp [ih n m (by omega)]

theorem declaredLength_set (l : List Nat) (i v : Nat) (h : i ≠ 3) :
    declaredLength (l.set i v) = declaredLength l :=
  getD_set_ne l i 3 v h

/-- A byte at or after the checksum is not part of the payload. -/
theorem payloadOf_set_after (l : List Nat) (i v : Nat) (h : 4 + declaredLength l ≤ i) :
    payloadOf (l.set i v) = payloadOf l := by
  rw [payloadOf, declaredLength_set l i v (by omega), payloadOf, List.drop_set,
    if_neg (by omega)]
  exact take_set_of_le _ _ _ _ (by omega)

/-- A byte of the header is not part of the payload. -/
theorem payloadOf_set_before (l : List Nat) (i v : Nat) (h : i < 3) :
    payloadOf (l.set i v) = payloadOf l := by
  rw [payloadOf, declaredLength_set l i v (by omega), payloadOf,
    List.drop_set_of_lt _ _ (by omega)]

theorem set_take_comm (l : List Nat) (n j v : Nat) :
    (l.set j v).take n = (l.take n).set j v := by
  induction l generalizing n j with
  | nil => simp
  | cons x xs ih =>
    cases n with
    | zero => simp
    | succ n =>
      cases j with
      | zero => simp
      | succ j => simp [ih n j]

/-- A byte of the payload region changes that byte of the payload. -/
theorem payloadOf_set_inside (l : List Nat) (i v : Nat) (h : 4 ≤ i) :
    payloadOf (l.set i v) = (payloadOf l).set (i - 4) v := by
  rw [payloadOf, declaredLength_set l i v (by omega), payloadOf, List.drop_set,
    if_neg (by omega), set_take_comm]

theorem sum_set_add (l : List Nat) (j v : Nat) (h : j < l.length) :
    (l.set j v).sum + l.getD j 0 = l.sum + v := by
  induction l generalizing j with
  | nil => simp at h
  | cons x xs ih =>
    cases j with
    | zero => simp; omega
    | succ j =>
      have := ih j (by simpa using h)
      simp only [List.set_cons_succ, List.sum_cons, List.getD_cons_succ]
      omega

theorem allBytes_set (l : List Nat) (j v : Nat) (hl : allBytes l = true) (hv : v < 256) :
    allBytes (l.set j v) = true := by
  simp only [allBytes, List.all_eq_true, decide_eq_true_eq] at hl ⊢
  intro b hb
  rcases List.mem_or_eq_of_mem_set hb with h | h
  · exact hl b h
  · omega

theorem xor_pow_ne (b k : Nat) : b ^^^ 2 ^ k ≠ b := by
  intro h
  have h1 := Nat.xor_cancel_left b (2 ^ k)
  rw [h, Nat.xor_self] at h1
  exact absurd h1.symm (by positivity)

theorem xor_pow_lt (b k : Nat) (hb : b < 256) (hk : k < 8) : b ^^^ 2 ^ k < 256 := by
  have h2 : (2 : Nat) ^ k < 2 ^ 8 := Nat.pow_lt_pow_right (by norm_num) hk
  exact @Nat.xor_lt_two_pow _ _ 8 hb h2

theorem swap_injective (u v : Nat) (hu : u < 65536) (hv : v < 65536) (h : swap u = swap v) :
    u = v := by
  rw [← beValue_u16Bytes_swap u hu, ← beValue_u16Bytes_swap v hv, h]

theorem transmit_fst_congr (h : request_header_t) (command : Option (List Nat)) (crc : Nat)
    (w w' : World) (hc : w.caps = w'.caps) :
    (transmit h command crc w).1 = (transmit h command crc w').1 := by
  simp only [transmit, write_fst, write_caps, hc]
  repeat (first | split | rfl)

/-- Return value of `execute` on a world that differs in the bytes to be read only. -/
theorem execute_rc_set_input (self : JbdBms) (hd : request_header_t)
    (cmd result : Option (List Nat)) (w : World) (inp : List Nat) :
    (execute self hd cmd result { w with input := inp }).rc
      = ((prepareCmd hd cmd).1
          && (transmit (prepareCmd hd cmd).2.1 cmd (prepareCmd hd cmd).2.2 (txWorld self w)).1
          && (receive result (rxWorld self hd cmd { w with input := inp })).1) := by
  rw [execute_rc]
  congr 2
  exact transmit_fst_congr _ _ _ _ _ (by simp)

/-- The response phase looks at the start byte, the return code, the length, the payload
and the two checksum bytes, and at how many bytes there are. -/
theorem receive_fst_congr (result : Option (List Nat)) (w w' : World)
    (h0 : w'.input.getD 0 0 = w.input.getD 0 0)
    (h2 : w'.input.getD 2 0 = w.input.getD 2 0)
    (hL : declaredLength w'.input = declaredLength w.input)
    (hlen : w'.input.length = w.input.length)
    (hp : payloadOf w'.input = payloadOf w.input)
    (hc1 : w'.input.getD (4 + declaredLength w.input) 0
      = w.input.getD (4 + declaredLength w.input) 0)
    (hc2 : w'.input.getD (5 + declaredLength w.input) 0
      = w.input.getD (5 + declaredLength w.input) 0) :
    (receive result w').1 = (receive result w).1 := by
  rw [Bool.eq_iff_iff, (receive_spec result w').1, (receive_spec result w).1, h0, h2, hL,
    hlen, hp, hc1, hc2]

/-- Return value of `execute` on two streams that agree in what the response phase
looks at. -/
theorem execute_rc_congr (self : JbdBms) (hd : request_header_t)
    (cmd result : Option (List Nat)) (w : World) (inp : List Nat)
    (h0 : inp.getD 0 0 = w.input.getD 0 0)
    (h2 : inp.getD 2 0 = w.input.getD 2 0)
    (hL : declaredLength inp = declaredLength w.input)
    (hlen : inp.length = w.input.length)
    (hp : payloadOf inp = payloadOf w.input)
    (hc1 : inp.getD (4 + declaredLength w.input) 0
      = w.input.getD (4 + declaredLength w.input) 0)
    (hc2 : inp.getD (5 + declaredLength w.input) 0
      = w.input.getD (5 + declaredLength w.input) 0) :
    (execute self hd cmd result { w with input := inp }).rc
      = (execute self hd cmd result w).rc := by
  rw [execute_rc_set_input, execute_rc]
  congr 1
  apply receive_fst_congr <;> simpa only [rxWorld_input]

/-- C6, counterexample: a cell-voltage response with matching checksum whose byte after
the checksum is 0x00 instead of 0x77 is accepted. -/
theorem execute_stop_byte_counterexample :
    stopOf [0xdd, 4, 0, 2, 0x0c, 0xe4, 0xff, 0x0e, 0x00] ≠ 0x77
    ∧ (execute ⟨0, 0, -1⟩ ⟨0, 0xa5, 4, 0⟩ none (some [0, 0, 0, 0])
        (World.fresh 0 [0xdd, 4, 0, 2, 0x0c, 0xe4, 0xff, 0x0e, 0x00])).rc = true := by
  decide

/-- C6, amended: a response whose stop byte is missing (the stream delivers fewer than
length + 7 bytes) makes execute return false, also when start byte, length, checksum and
return code are in order; the value of the byte after the checksum is not examined:
replacing it by any other value leaves the return value of execute unchanged. -/
theorem execute_stop_byte_presence (self : JbdBms) (hd : request_header_t)
    (cmd result : Option (List Nat)) (w : World) :
    (w.input.length < declaredLength w.input + 7 → (execute self hd cmd result w).rc = false)
    ∧ (∀ s : Nat,
        (execute self hd cmd result
          { w with input := w.input.set (6 + declaredLength w.input) s }).rc
          = (execute self hd cmd result w).rc) := by
  constructor
  · intro hlt
    cases hrc : (execute self hd cmd result w).rc with
    | false => rfl
    | true =>
      have := (execute_accepts self hd cmd result w hrc).2.2.2.1
      omega
  · intro s
    apply execute_rc_congr
    · exact getD_set_ne _ _ _ _ (by omega)
    · exact getD_set_ne _ _ _ _ (by omega)
    · exact declaredLength_set _ _ _ (by omega)
    · exact List.length_set _ _ _
    · exact payloadOf_set_after _ _ _ (by omega)
    · exact getD_set_ne _ _ _ _ (by omega)
    · exact getD_set_ne _ _ _ _ (by omega)

/-- Witness of C6 amended: the same response cut off after the checksum is rejected. -/
theorem execute_stop_byte_presence_witness :
    [0xdd, 4, 0, 2, 0x0c, 0xe4, 0xff, 0x0e].length
        < declaredLength [0xdd, 4, 0, 2, 0x0c, 0xe4, 0xff, 0x0e] + 7
    ∧ (execute ⟨0, 0, -1⟩ ⟨0, 0xa5, 4, 0⟩ none (some [0, 0, 0, 0])
        (World.fresh 0 [0xdd, 4, 0, 2, 0x0c, 0xe4, 0xff, 0x0e])).rc = false :=
  ⟨by decide,
    (execute_stop_byte_presence ⟨0, 0, -1⟩ ⟨0, 0xa5, 4, 0⟩ none (some [0, 0, 0, 0])
      (World.fresh 0 [0xdd, 4, 0, 2, 0x0c, 0xe4, 0xff, 0x0e])).1 (by decide)⟩

theorem payloadOf_getD (l : List Nat) (j : Nat) (h : j < declaredLength l) :
    (payloadOf l).getD j 0 = l.getD (4 + j) 0 := by
  rw [payloadOf, getD_take_of_lt _ _ _ h, getD_drop]

/-- C5, counterexample: an accepted cell-voltage response stays accepted when the lowest
bit of its command byte (second byte, neither start nor stop byte) is flipped. -/
theorem execute_bit_flip_counterexample :
    (execute ⟨0, 0, -1⟩ ⟨0, 0xa5, 4, 0⟩ none (some [0, 0, 0, 0])
        (World.fresh 0 [0xdd, 4, 0, 2, 0x0c, 0xe4, 0xff, 0x0e, 0x77])).rc = true
    ∧ flipBit [0xdd, 4, 0, 2, 0x0c, 0xe4, 0xff, 0x0e, 0x77] 1 0
        = [0xdd, 5, 0, 2, 0x0c, 0xe4, 0xff, 0x0e, 0x77]
    ∧ (execute ⟨0, 0, -1⟩ ⟨0, 0xa5, 4, 0⟩ none (some [0, 0, 0, 0])
        (World.fresh 0 (flipBit [0xdd, 4, 0, 2, 0x0c, 0xe4, 0xff, 0x0e, 0x77] 1 0))).rc
        = true := by
  decide

/-- C5, amended: for a response that execute accepts, flipping one bit of the return-code
byte, of a payload byte when the declared length is below 31, or of one of the two
checksum bytes makes execute return false; flipping a bit of the command byte, which the
checksum does not cover, leaves the response accepted. -/
theorem execute_bit_flip_detection (self : JbdBms) (hd : request_header_t)
    (cmd result : Option (List Nat)) (w : World) (k : Nat)
    (hbytes : allBytes w.input = true) (hk : k < 8)
    (hrc : (execute self hd cmd result w).rc = true) :
    (∀ i : Nat,
        (i = 2 ∨ (declaredLength w.input < 31 ∧ 4 ≤ i ∧ i < 4 + declaredLength w.input)
          ∨ i = 4 + declaredLength w.input ∨ i = 5 + declaredLength w.input) →
        (execute self hd cmd result { w with input := flipBit w.input i k }).rc = false)
    ∧ (execute self hd cmd result { w with input := flipBit w.input 1 k }).rc = true := by
  obtain ⟨a0, aL, ares, alen, acrc, arc⟩ := execute_accepts self hd cmd result w hrc
  constructor
  swap
  · rw [← hrc]
    apply execute_rc_congr
    · exact getD_set_ne _ _ _ _ (by omega)
    · exact getD_set_ne _ _ _ _ (by omega)
    · exact declaredLength_set _ _ _ (by omega)
    · exact List.length_set _ _ _
    · exact payloadOf_set_before _ _ _ (by omega)
    · exact getD_set_ne _ _ _ _ (by omega)
    · exact getD_set_ne _ _ _ _ (by omega)
  intro i hi
  cases hrc2 : (execute self hd cmd result { w with input := flipBit w.input i k }).rc with
  | false => rfl
  | true =>
    exfalso
    obtain ⟨-, -, -, -, bcrc, brc⟩ := execute_accepts self hd cmd result _ hrc2
    have hin : ({ w with input := flipBit w.input i k } : World).input
        = w.input.set i (w.input.getD i 0 ^^^ 2 ^ k) := rfl
    rw [hin] at bcrc brc
    have hi3 : i ≠ 3 := by omega
    have hil : i < w.input.length := by omega
    rw [declaredLength_set _ _ _ hi3] at bcrc
    have hx := xor_pow_ne (w.input.getD i 0) k
    have hb := getD_lt_of_allBytes w.input i hbytes
    have hxl := xor_pow_lt _ k hb hk
    rcases hi with h | h | h | h
    · subst h
      rw [getD_set_self _ _ _ hil, arc] at brc
      rw [arc] at hx
      exact hx brc
    · obtain ⟨h31, h4, hlt⟩ := h
      rw [getD_set_ne _ _ _ _ (by omega), getD_set_ne _ _ _ _ (by omega),
        getD_set_ne _ _ _ _ (by omega), ← acrc, payloadOf_set_inside _ _ _ h4] at bcrc
      have hpl := payloadOf_length w.input (by omega)
      have hpb := allBytes_payloadOf w.input hbytes
      have hpb2 := allBytes_set (payloadOf w.input) (i - 4) _ hpb hxl
      have hpl2 : ((payloadOf w.input).set (i - 4) (w.input.getD i 0 ^^^ 2 ^ k)).length
          = declaredLength w.input := by rw [List.length_set, hpl]
      have hrb := getD_lt_of_allBytes w.input 2 hbytes
      have g1 := genCrc_valid _ _ _ hrb h31 (le_of_eq hpl.symm) hpb
      have g2 := genCrc_valid _ _ _ hrb h31 (le_of_eq hpl2.symm) hpb2
      rw [List.take_of_length_le (le_of_eq hpl)] at g1
      rw [List.take_of_length_le (le_of_eq hpl2)] at g2
      rw [g1, g2] at bcrc
      have s1 := sum_le_of_allBytes _ hpb
      have s2 := sum_le_of_allBytes _ hpb2
      rw [hpl] at s1
      rw [hpl2] at s2
      have hv := swap_injective _ _ (by omega) (by omega) bcrc
      have hsum := sum_set_add (payloadOf w.input) (i - 4) (w.input.getD i 0 ^^^ 2 ^ k)
        (by omega)
      rw [payloadOf_getD _ _ (by omega)] at hsum
      have e4 : 4 + (i - 4) = i := by omega
      rw [e4] at hsum
      omega
    · subst h
      rw [getD_set_ne _ _ _ _ (by omega), getD_set_self _ _ _ hil,
        getD_set_ne _ _ _ _ (by omega), payloadOf_set_after _ _ _ (le_refl _), acrc] at bcrc
      simp only [u16OfBytes] at bcrc
      omega
    · subst h
      rw [getD_set_ne _ _ _ _ (by omega), getD_set_ne _ _ _ _ (by omega),
        getD_set_self _ _ _ hil, payloadOf_set_after _ _ _ (by omega), acrc] at bcrc
      simp only [u16OfBytes] at bcrc
      omega

/-- Witness of C5 amended: flipping the lowest bit of the first payload byte of an
accepted response gets it rejected. -/
theorem execute_bit_flip_detection_witness :
    (allBytes [0xdd, 4, 0, 2, 0x0c, 0xe4, 0xff, 0x0e, 0x77] = true ∧ 0 < 8
      ∧ (execute ⟨0, 0, -1⟩ ⟨0, 0xa5, 4, 0⟩ none (some [0, 0, 0, 0])
          (World.fresh 0 [0xdd, 4, 0, 2, 0x0c, 0xe4, 0xff, 0x0e, 0x77])).rc = true)
    ∧ (execute ⟨0, 0, -1⟩ ⟨0, 0xa5, 4, 0⟩ none (some [0, 0, 0, 0])
        { World.fresh 0 [0xdd, 4, 0, 2, 0x0c, 0xe4, 0xff, 0x0e, 0x77] with
          input := flipBit [0xdd, 4, 0, 2, 0x0c, 0xe4, 0xff, 0x0e, 0x77] 4 0 }).rc = false :=
  ⟨by decide,
    (execute_bit_flip_detection ⟨0, 0, -1⟩ ⟨0, 0xa5, 4, 0⟩ none (some [0, 0, 0, 0])
      (World.fresh 0 [0xdd, 4, 0, 2, 0x0c, 0xe4, 0xff, 0x0e, 0x77]) 0
      (by decide) (by decide) (by decide)).1 4 (by decide)⟩

/-! ## The calls that `execute` makes -/

@[simp] theorem writes_spacing (self : JbdBms) (w : World) :
    writes (spacing self w) = writes w := by
  simp only [spacing, writes]; split <;> simp [List.filterMap_append]

@[simp] theorem reads_spacing (self : JbdBms) (w : World) :
    reads (spacing self w) = reads w := by
  simp only [spacing, reads]; split <;> simp [List.filterMap_append]

@[simp] theorem writes_txWorld (self : JbdBms) (w : World) :
    writes (txWorld self w) = writes w := by
  rw [← writes_spacing self w]
  simp only [txWorld, writes]; split <;> simp [List.filterMap_append]

@[simp] theorem reads_txWorld (self : JbdBms) (w : World) :
    reads (txWorld self w) = reads w := by
  rw [← reads_spacing self w]
  simp only [txWorld, reads]; split <;> simp [List.filterMap_append]

@[simp] theorem reads_transmit (h : request_header_t) (command : Option (List Nat))
    (crc : Nat) (w : World) : reads (transmit h command crc w).2 = reads w := by
  simp only [transmit, reads]
  repeat (first | split | simp [List.filterMap_append])

@[simp] theorem writes_readPayload (n : Nat) (result : Option (List Nat)) (w : World) :
    writes (readPayload n result w).2.2 = writes w := by
  unfold readPayload
  split
  · rfl
  · cases result <;> simp [writes, List.filterMap_append]

@[simp] theorem writes_receive (result : Option (List Nat)) (w : World) :
    writes (receive result w).2.2 = writes w := by
  have h := writes_readPayload (declaredLength w.input) result (readBytes 4 w).2
  simp only [writes, readBytes_trace, List.filterMap_append] at h
  simp only [receive, writes]
  repeat (first | split | simp [List.filterMap_append, writes, declaredLength,
    response_header_t.ofBytes] at h ⊢ | exact h)

theorem writes_rxWorld (self : JbdBms) (h : request_header_t) (command : Option (List Nat))
    (w : World) :
    writes (rxWorld self h command w)
      = writes (transmit (prepareCmd h command).2.1 command (prepareCmd h command).2.2
          (txWorld self w)).2 := by
  simp only [rxWorld, writes]; split <;> simp [List.filterMap_append]

@[simp] theorem reads_rxWorld (self : JbdBms) (h : request_header_t)
    (command : Option (List Nat)) (w : World) :
    reads (rxWorld self h command w) = reads w := by
  rw [← reads_txWorld self w, ← reads_transmit (prepareCmd h command).2.1 command
    (prepareCmd h command).2.2 (txWorld self w)]
  simp only [rxWorld, reads]; split <;> simp [List.filterMap_append]

@[simp] theorem writes_millis (w : World) : writes (millis w).2 = writes w := by
  simp [writes, List.filterMap_append]

@[simp] theorem reads_millis (w : World) : reads (millis w).2 = reads w := by
  simp [reads, List.filterMap_append]

theorem writes_write (bs : List Nat) (w : World) :
    writes (write bs w).2 = writes w ++ [(bs, accepted w.caps bs.length)] := by
  simp [writes, List.filterMap_append]

theorem accepted_le (caps : List Nat) (n : Nat) : accepted caps n ≤ n := by
  cases caps with
  | nil => exact le_refl _
  | cons c cs => exact min_le_right _ _

/-- The writes of the transmit phase: every one but the last was accepted in full, and
if one was not, the phase fails. -/
theorem transmit_writes (h : request_header_t) (command : Option (List Nat)) (crc : Nat)
    (w : World) :
    ∃ ws : List (List Nat × Nat),
      writes (transmit h command crc w).2 = writes w ++ ws
      ∧ (∀ e ∈ ws.dropLast, e.2 = e.1.length)
      ∧ ((∃ e ∈ ws, e.2 < e.1.length) → (transmit h command crc w).1 = false) := by
  by_cases a1 : accepted w.caps h.bytes.length = 4
  swap
  · refine ⟨[(h.bytes, accepted w.caps h.bytes.length)], ?_, by simp, ?_⟩
    · simp only [transmit, write_fst]
      rw [if_pos a1, writes_write]
    · intro _
      simp only [transmit, write_fst]
      rw [if_pos a1]
  by_cases a2 : accepted (write h.bytes w).2.caps ((command.getD []).take h.length).length
      = h.length
  swap
  · refine ⟨[(h.bytes, accepted w.caps h.bytes.length),
      ((command.getD []).take h.length,
        accepted (write h.bytes w).2.caps ((command.getD []).take h.length).length)],
      ?_, ?_, ?_⟩
    · simp only [transmit, write_fst]
      rw [if_neg (not_not_intro a1), if_pos a2, writes_write, writes_write]
      simp
    · intro e he
      simp only [List.dropLast, List.mem_singleton] at he
      subst he
      exact a1
    · intro _
      simp only [transmit, write_fst]
      rw [if_neg (not_not_intro a1), if_pos a2]
  by_cases a3 : accepted (write ((command.getD []).take h.length) (write h.bytes w).2).2.caps
      (u16Bytes crc).length = 2
  swap
  · refine ⟨[(h.bytes, accepted w.caps h.bytes.length),
      ((command.getD []).take h.length,
        accepted (write h.bytes w).2.caps ((command.getD []).take h.length).length),
      (u16Bytes crc,
        accepted (write ((command.getD []).take h.length) (write h.bytes w).2).2.caps
          (u16Bytes crc).length)],
      ?_, ?_, ?_⟩
    · simp only [transmit, write_fst]
      rw [if_neg (not_not_intro a1), if_neg (not_not_intro a2), if_pos a3, writes_write,
        writes_write, writes_write]
      simp
    · intro e he
      simp only [List.dropLast, List.mem_cons, List.mem_singleton, List.not_mem_nil,
        or_false] at he
      have hl := accepted_le (write h.bytes w).2.caps ((command.getD []).take h.length).length
      have hl2 : ((command.getD []).take h.length).length ≤ h.length := by simp
      rcases he with he | he
      · subst he; exact a1
      · subst he
        show accepted (write h.bytes w).2.caps ((command.getD []).take h.length).length
          = ((command.getD []).take h.length).length
        omega
    · intro _
      simp only [transmit, write_fst]
      rw [if_neg (not_not_intro a1), if_neg (not_not_intro a2), if_pos a3]
  refine ⟨[(h.bytes, accepted w.caps h.bytes.length),
      ((command.getD []).take h.length,
        accepted (write h.bytes w).2.caps ((command.getD []).take h.length).length),
      (u16Bytes crc,
        accepted (write ((command.getD []).take h.length) (write h.bytes w).2).2.caps
          (u16Bytes crc).length),
      ([0x77], accepted (write (u16Bytes crc)
        (write ((command.getD []).take h.length) (write h.bytes w).2).2).2.caps 1)],
      ?_, ?_, ?_⟩
  · simp only [transmit, write_fst]
    rw [if_neg (not_not_intro a1), if_neg (not_not_intro a2), if_neg (not_not_intro a3),
      writes_write, writes_write, writes_write, writes_write]
    simp
  · intro e he
    simp only [List.dropLast, List.mem_cons, List.mem_singleton, List.not_mem_nil,
      or_false] at he
    have hl := accepted_le (write h.bytes w).2.caps ((command.getD []).take h.length).length
    have hl2 : ((command.getD []).take h.length).length ≤ h.length := by simp
    rcases he with he | he | he
    · subst he; exact a1
    · subst he
      show accepted (write h.bytes w).2.caps ((command.getD []).take h.length).length
        = ((command.getD []).take h.length).length
      omega
    · subst he; exact a3
  · rintro ⟨e, he, hshort⟩
    simp only [List.mem_cons, List.mem_singleton, List.not_mem_nil, or_false] at he
    have hl := accepted_le (write h.bytes w).2.caps ((command.getD []).take h.length).length
    have hl2 : ((command.getD []).take h.length).length ≤ h.length := by simp
    have b1 : accepted w.caps h.bytes.length = h.bytes.length := a1
    have b3 : accepted (write ((command.getD []).take h.length) (write h.bytes w).2).2.caps
      (u16Bytes crc).length = (u16Bytes crc).length := a3
    simp only [transmit, write_fst]
    rw [if_neg (not_not_intro a1), if_neg (not_not_intro a2), if_neg (not_not_intro a3)]
    rcases he with he | he | he | he
    · subst he; simp only [b1, lt_self_iff_false] at hshort
    · subst he; simp only at hshort; omega
    · subst he; simp only [b3, lt_self_iff_false] at hshort
    · subst he
      simp only [List.length_singleton] at hshort
      have : accepted (write (u16Bytes crc)
        (write ((command.getD []).take h.length) (write h.bytes w).2).2).2.caps 1 = 0 := by
        omega
      show (accepted (write (u16Bytes crc)
        (write ((command.getD []).take h.length) (write h.bytes w).2).2).2.caps 1 == 1) = false
      rw [this]
      rfl

theorem nil_after_of_dropLast {α : Type} (P : α → Prop) (l pre post : List α) (e : α)
    (h : ∀ x ∈ l.dropLast, ¬ P x) (hl : l = pre ++ e :: post) (he : P e) : post = [] := by
  by_contra hne
  apply h e _ he
  subst hl
  rw [List.dropLast_append_of_ne_nil _ (by simp), List.dropLast_cons_of_ne_nil hne]
  simp

/-- The writes of `execute` are those of its transmit phase. -/
theorem writes_execute (self : JbdBms) (h : request_header_t)
    (command result : Option (List Nat)) (w : World)
    (hp : (prepareCmd h command).1 = true) :
    writes (execute self h command result w).world
      = writes (transmit (prepareCmd h command).2.1 command (prepareCmd h command).2.2
          (txWorld self w)).2 := by
  rw [execute_eq, ← writes_rxWorld]
  by_cases ht : (transmit (prepareCmd h command).2.1 command (prepareCmd h command).2.2
      (txWorld self w)).1 = true
  · simp [hp, ht]
  · simp only [Bool.not_eq_true] at ht
    simp [hp, ht]

/-- Without a complete request, `execute` does not touch the receiving side. -/
theorem execute_no_read (self : JbdBms) (h : request_header_t)
    (command result : Option (List Nat)) (w : World)
    (ht : (prepareCmd h command).1 = false
      ∨ (transmit (prepareCmd h command).2.1 command (prepareCmd h command).2.2
          (txWorld self w)).1 = false) :
    reads (execute self h command result w).world = reads w
    ∧ (execute self h command result w).world.input = w.input
    ∧ (execute self h command result w).result = result := by
  rw [execute_eq]
  by_cases hp : (prepareCmd h command).1 = false
  · simp [hp]
  · have ht2 := ht.resolve_left hp
    simp only [Bool.not_eq_false] at hp
    simp [hp, ht2]

/-- C9: if one of the writes of a request is accepted short (fewer bytes than offered),
execute returns false, makes no further write after it, makes no readBytes call and
leaves the bytes waiting on the stream where they are. -/
theorem execute_short_write_aborts (self : JbdBms) (hd : request_header_t)
    (cmd result : Option (List Nat)) (w : World)
    (pre post : List (List Nat × Nat)) (e : List Nat × Nat)
    (hws : (writes (execute self hd cmd result w).world).drop (writes w).length
      = pre ++ e :: post)
    (hshort : e.2 < e.1.length) :
    (execute self hd cmd result w).rc = false
    ∧ post = []
    ∧ reads (execute self hd cmd result w).world = reads w
    ∧ (execute self hd cmd result w).world.input = w.input := by
  by_cases hp : (prepareCmd hd cmd).1 = true
  swap
  · exfalso
    simp only [Bool.not_eq_true] at hp
    rw [execute_eq] at hws
    simp [hp] at hws
  obtain ⟨ws, hw, hfull, hfail⟩ := transmit_writes (prepareCmd hd cmd).2.1 cmd
    (prepareCmd hd cmd).2.2 (txWorld self w)
  rw [writes_execute _ _ _ _ _ hp, hw, writes_txWorld, List.drop_left] at hws
  have ht := hfail ⟨e, by rw [hws]; simp, hshort⟩
  have hnr := execute_no_read self hd cmd result w (Or.inr ht)
  refine ⟨?_, ?_, hnr.1, hnr.2.1⟩
  · rw [execute_rc, ht]; simp
  · exact nil_after_of_dropLast (fun x => x.2 < x.1.length) ws pre post e
      (fun x hx => by show ¬ x.2 < x.1.length; rw [hfull x hx]; exact lt_irrefl _) hws hshort

/-- Witness of C9: the payload write of a mosfet request gets one of its two bytes
accepted. -/
theorem execute_short_write_aborts_witness :
    ((writes (execute ⟨0, 0, -1⟩ ⟨0, 0x5a, 0xe1, 2⟩ (some [0, 3]) none
        { World.fresh 0 [0xdd, 0xe1, 0, 0, 0, 0, 0x77] with caps := [4, 1] }).world).drop
        (writes { World.fresh 0 [0xdd, 0xe1, 0, 0, 0, 0, 0x77] with caps := [4, 1] }).length
        = [([0xdd, 0x5a, 0xe1, 2], 4)] ++ ([0, 3], 1) :: []
      ∧ (([0, 3], 1) : List Nat × Nat).2 < (([0, 3], 1) : List Nat × Nat).1.length)
    ∧ (execute ⟨0, 0, -1⟩ ⟨0, 0x5a, 0xe1, 2⟩ (some [0, 3]) none
        { World.fresh 0 [0xdd, 0xe1, 0, 0, 0, 0, 0x77] with caps := [4, 1] }).rc = false
    ∧ ([] : List (List Nat × Nat)) = []
    ∧ reads (execute ⟨0, 0, -1⟩ ⟨0, 0x5a, 0xe1, 2⟩ (some [0, 3]) none
        { World.fresh 0 [0xdd, 0xe1, 0, 0, 0, 0, 0x77] with caps := [4, 1] }).world
        = reads { World.fresh 0 [0xdd, 0xe1, 0, 0, 0, 0, 0x77] with caps := [4, 1] }
    ∧ (execute ⟨0, 0, -1⟩ ⟨0, 0x5a, 0xe1, 2⟩ (some [0, 3]) none
        { World.fresh 0 [0xdd, 0xe1, 0, 0, 0, 0, 0x77] with caps := [4, 1] }).world.input
        = [0xdd, 0xe1, 0, 0, 0, 0, 0x77] :=
  ⟨by decide,
    execute_short_write_aborts ⟨0, 0, -1⟩ ⟨0, 0x5a, 0xe1, 2⟩ (some [0, 3]) none
      { World.fresh 0 [0xdd, 0xe1, 0, 0, 0, 0, 0x77] with caps := [4, 1] }
      [([0xdd, 0x5a, 0xe1, 2], 4)] [] ([0, 3], 1) (by decide) (by decide)⟩

/-! ## Time -/

theorem After.start (w : World) : After w.clock w w :=
  ⟨[], by simp, by simp, le_refl _⟩

theorem After.step (c : Nat) (w0 w w' : World) (ev : Event) (h : After c w0 w)
    (ht : w'.trace = w.trace ++ [(w.clock, ev)]) (hc : w.clock ≤ w'.clock)
    (hev : ∀ ms, ev ≠ Event.delay ms) :
    After c w0 w' := by
  obtain ⟨evs, h1, h2, h3⟩ := h
  refine ⟨evs ++ [(w.clock, ev)], by rw [ht, h1, List.append_assoc], ?_, le_trans h3 hc⟩
  intro e he
  rcases List.mem_append.1 he with h | h
  · exact h2 e h
  · simp only [List.mem_singleton] at h
    subst h
    exact ⟨h3, hev⟩

theorem After.millis (c : Nat) (w0 w : World) (h : After c w0 w) :
    After c w0 (JbdBms.millis w).2 :=
  After.step c w0 w _ _ h (millis_trace w) (le_refl _) (fun _ hh => by cases hh)

theorem After.digitalWrite (c : Nat) (w0 w : World) (p : Int) (l : Bool)
    (h : After c w0 w) : After c w0 (JbdBms.digitalWrite p l w) :=
  After.step c w0 w _ _ h (digitalWrite_trace w p l) (le_refl _) (fun _ hh => by cases hh)

theorem After.flush (c : Nat) (w0 w : World) (h : After c w0 w) :
    After c w0 (JbdBms.flush w) :=
  After.step c w0 w _ _ h (flush_trace w) (by simp) (fun _ hh => by cases hh)

theorem After.write (c : Nat) (w0 w : World) (bs : List Nat) (h : After c w0 w) :
    After c w0 (JbdBms.write bs w).2 :=
  After.step c w0 w _ _ h (write_trace w bs) (by simp) (fun _ hh => by cases hh)

theorem After.readBytes (c : Nat) (w0 w : World) (n : Nat) (h : After c w0 w) :
    After c w0 (JbdBms.readBytes n w).2 :=
  After.step c w0 w _ _ h (readBytes_trace w n) (by simp) (fun _ hh => by cases hh)

theorem After.transmit (c : Nat) (w0 w : World) (hd : request_header_t)
    (command : Option (List Nat)) (crc : Nat) (h : After c w0 w) :
    After c w0 (JbdBms.transmit hd command crc w).2 := by
  simp only [JbdBms.transmit]
  repeat (first | split | apply After.write | exact h)

theorem After.readPayload (c : Nat) (w0 w : World) (n : Nat) (result : Option (List Nat))
    (h : After c w0 w) : After c w0 (JbdBms.readPayload n result w).2.2 := by
  unfold JbdBms.readPayload
  split
  · exact h
  · cases result with
    | none => exact h
    | some mem => exact After.readBytes c w0 w n h

theorem After.receive (c : Nat) (w0 w : World) (result : Option (List Nat))
    (h : After c w0 w) : After c w0 (JbdBms.receive result w).2.2 := by
  simp only [JbdBms.receive]
  repeat (first | split | apply After.readBytes | apply After.readPayload | exact h)

theorem After.txWorld (self : JbdBms) (w : World) :
    After (spacing self w).clock (spacing self w) (JbdBms.txWorld self w) := by
  simp only [JbdBms.txWorld]
  split
  · exact After.flush _ _ _ (After.digitalWrite _ _ _ _ _ (After.start _))
  · exact After.flush _ _ _ (After.start _)

theorem After.rxWorld (self : JbdBms) (hd : request_header_t) (command : Option (List Nat))
    (w : World) :
    After (spacing self w).clock (spacing self w) (JbdBms.rxWorld self hd command w) := by
  simp only [JbdBms.rxWorld]
  split
  · exact After.digitalWrite _ _ _ _ _
      (After.flush _ _ _ (After.transmit _ _ _ _ _ _ (After.txWorld self w)))
  · exact After.flush _ _ _ (After.transmit _ _ _ _ _ _ (After.txWorld self w))

/-- Everything `execute` does after the spacing wait starts after that wait. -/
theorem After.execute (self : JbdBms) (hd : request_header_t)
    (command result : Option (List Nat)) (w : World)
    (hp : (prepareCmd hd command).1 = true) :
    After (spacing self w).clock (spacing self w)
      (JbdBms.execute self hd command result w).world := by
  rw [execute_eq]
  by_cases ht : (JbdBms.transmit (prepareCmd hd command).2.1 command
      (prepareCmd hd command).2.2 (JbdBms.txWorld self w)).1 = true
  · simp only [hp, Bool.true_eq_false, if_false, ht, if_true]
    exact After.millis _ _ _ (After.receive _ _ _ _ (After.rxWorld self hd command w))
  · simp only [Bool.not_eq_true] at ht
    simp only [hp, Bool.true_eq_false, if_false, ht]
    exact After.millis _ _ _ (After.rxWorld self hd command w)

theorem After.delays (c : Nat) (w0 w1 : World) (h : After c w0 w1) :
    delays w1 = delays w0 := by
  obtain ⟨evs, h1, h2, -⟩ := h
  simp only [JbdBms.delays, h1, List.filterMap_append]
  rw [List.append_right_eq_self, List.filterMap_eq_nil_iff]
  intro e he
  have := (h2 e he).2
  cases hev : e.2 <;> simp_all

theorem After.writeTimes (c : Nat) (w0 w1 : World) (h : After c w0 w1) :
    ∀ t ∈ (writeTimes w1).drop (writeTimes w0).length, c ≤ t := by
  obtain ⟨evs, h1, h2, -⟩ := h
  intro t ht
  simp only [JbdBms.writeTimes, h1, List.filterMap_append, List.drop_left] at ht
  obtain ⟨e, he, hm⟩ := List.mem_filterMap.1 ht
  have hc := (h2 e he).1
  cases hev : e.2 <;> simp_all

theorem spacing_trace (self : JbdBms) (w : World) :
    (spacing self w).trace
      = w.trace ++ (w.clock, Event.millis (w.clock % 2 ^ 32))
          :: (if remaining self._delay (w.clock % 2 ^ 32) self._prev ≤ self._delay then
                [(w.clock, Event.delay (remaining self._delay (w.clock % 2 ^ 32) self._prev))]
              else []) := by
  simp only [spacing, millis_fst]
  split <;> simp

theorem spacing_clock (self : JbdBms) (w : World) :
    (spacing self w).clock
      = w.clock + (if remaining self._delay (w.clock % 2 ^ 32) self._prev ≤ self._delay then
          remaining self._delay (w.clock % 2 ^ 32) self._prev else 0) := by
  simp only [spacing, millis_fst]
  split <;> simp

/-- C10: with D the configured delay, prev the stored time and e = (now - prev) mod 2^32
for the clock value now read at the check, an execute call that reaches the check calls
delay exactly once, with D - e, when e ≤ D and does not call delay when e > D; no wait is
longer than D; and no write of the call starts earlier than D milliseconds after the true
time at which prev was taken, whether or not the 32-bit clock wrapped in between. -/
theorem execute_command_spacing (self : JbdBms) (hd : request_header_t)
    (cmd result : Option (List Nat)) (w : World)
    (hprep : (prepareCmd hd cmd).1 = true)
    (hD : self._delay < 256) (hprev : self._prev < 2 ^ 32) :
    (elapsed (w.clock % 2 ^ 32) self._prev ≤ self._delay →
      (delays (execute self hd cmd result w).world).drop (delays w).length
        = [self._delay - elapsed (w.clock % 2 ^ 32) self._prev])
    ∧ (self._delay < elapsed (w.clock % 2 ^ 32) self._prev →
      (delays (execute self hd cmd result w).world).drop (delays w).length = [])
    ∧ (∀ ms ∈ (delays (execute self hd cmd result w).world).drop (delays w).length,
        ms ≤ self._delay)
    ∧ (∀ prevT : Nat, prevT ≤ w.clock → self._prev = prevT % 2 ^ 32 →
        ∀ t ∈ (writeTimes (execute self hd cmd result w).world).drop (writeTimes w).length,
          prevT + self._delay ≤ t) := by
  have hA := After.execute self hd cmd result w hprep
  have hdel := After.delays _ _ _ hA
  have hwt := After.writeTimes _ _ _ hA
  have hsd : delays (spacing self w)
      = delays w ++ (if remaining self._delay (w.clock % 2 ^ 32) self._prev ≤ self._delay
          then [remaining self._delay (w.clock % 2 ^ 32) self._prev] else []) := by
    simp only [delays, spacing_trace, List.filterMap_append]
    split <;> simp
  have hsw : writeTimes (spacing self w) = writeTimes w := by
    simp only [writeTimes, spacing_trace, List.filterMap_append]
    split <;> simp
  rw [hsw, spacing_clock] at hwt
  rw [hdel, hsd, List.drop_left]
  have hrem : remaining self._delay (w.clock % 2 ^ 32) self._prev
      = (self._delay + 2 ^ 32 - elapsed (w.clock % 2 ^ 32) self._prev) % 2 ^ 32 := rfl
  have he : elapsed (w.clock % 2 ^ 32) self._prev < 2 ^ 32 := by
    unfold elapsed; omega
  refine ⟨?_, ?_, ?_, ?_⟩
  · intro hle
    have : remaining self._delay (w.clock % 2 ^ 32) self._prev
        = self._delay - elapsed (w.clock % 2 ^ 32) self._prev := by rw [hrem]; omega
    rw [if_pos (by rw [this]; omega), this]
  · intro hlt
    rw [if_neg (by rw [hrem]; omega)]
  · intro ms hms
    split at hms
    · simp only [List.mem_singleton] at hms
      omega
    · simp at hms
  · intro prevT hle hpe t ht
    have h1 := hwt t ht
    have he2 : elapsed (w.clock % 2 ^ 32) self._prev
        = (w.clock % 2 ^ 32 + 2 ^ 32 - prevT % 2 ^ 32) % 2 ^ 32 := by
      rw [hpe]; rfl
    split at h1
    · rename_i hc
      rw [hrem] at hc h1
      omega
    · rename_i hc
      rw [hrem] at hc
      omega

/-- Witness of C10: delay 50 ms, prev taken 6 ms before the clock wrapped, now 4 ms
after; the call waits 40 ms. -/
theorem execute_command_spacing_witness :
    ((prepareCmd ⟨0, 0xa5, 3, 0⟩ none).1 = true ∧ (50 : Nat) < 256
      ∧ (4294967290 : Nat) < 2 ^ 32
      ∧ elapsed ((World.fresh 4294967300 []).clock % 2 ^ 32) 4294967290 ≤ 50)
    ∧ (delays (execute ⟨50, 4294967290, -1⟩ ⟨0, 0xa5, 3, 0⟩ none none
        (World.fresh 4294967300 [])).world).drop (delays (World.fresh 4294967300 [])).length
        = [40] :=
  ⟨by decide,
    (execute_command_spacing ⟨50, 4294967290, -1⟩ ⟨0, 0xa5, 3, 0⟩ none none
      (World.fresh 4294967300 []) (by decide) (by decide) (by decide)).1 (by decide)⟩

/-! ## The stored time of the last command -/

/-- C11, counterexample: a request with length 31 fails at the encoding step; execute
returns without reading the clock, and the stored time stays 7 while the clock shows
1000. -/
theorem execute_records_time_counterexample :
    (execute ⟨0, 7, -1⟩ ⟨0, 0xa5, 3, 31⟩ none none (World.fresh 1000 [])).rc = false
    ∧ (execute ⟨0, 7, -1⟩ ⟨0, 0xa5, 3, 31⟩ none none (World.fresh 1000 [])).self._prev = 7
    ∧ (execute ⟨0, 7, -1⟩ ⟨0, 0xa5, 3, 31⟩ none none (World.fresh 1000 [])).world.clock
        % 2 ^ 32 = 1000
    ∧ (execute ⟨0, 7, -1⟩ ⟨0, 0xa5, 3, 31⟩ none none (World.fresh 1000 [])).world.trace
        = [] := by
  decide

/-- C11, amended: after every call of execute that passes the encoding step, whether it
then succeeds or fails (short write, short read, bad header, checksum mismatch, device
error), the last thing the call did was to read the clock, and the stored last-command
time is the value read; a call that fails at the encoding step returns at once and
leaves the stored time and the world as they were. -/
theorem execute_records_time (self : JbdBms) (hd : request_header_t)
    (cmd result : Option (List Nat)) (w : World) :
    ((prepareCmd hd cmd).1 = true →
      (execute self hd cmd result w).world.trace.getLast?
          = some ((execute self hd cmd result w).world.clock,
              Event.millis (execute self hd cmd result w).self._prev)
      ∧ (execute self hd cmd result w).self._prev
          = (execute self hd cmd result w).world.clock % 2 ^ 32)
    ∧ ((prepareCmd hd cmd).1 = false →
      (execute self hd cmd result w).self = self
      ∧ (execute self hd cmd result w).world = w) := by
  constructor
  · intro hp
    rw [execute_eq]
    simp only [hp, Bool.true_eq_false, if_false, millis_trace, millis_fst, millis_clock,
      List.getLast?_concat, and_self]
  · intro hp
    rw [execute_eq]
    simp only [hp, if_true, and_self]

/-- Witness of C11 amended: a status request whose response never arrives, with every
stream call taking 3 ms. -/
theorem execute_records_time_witness :
    (prepareCmd ⟨0, 0xa5, 3, 0⟩ none).1 = true
    ∧ (execute ⟨0, 7, -1⟩ ⟨0, 0xa5, 3, 0⟩ none none
        { World.fresh 1000 [] with lags := [3, 3, 3, 3, 3, 3, 3] }).self._prev = 1021 :=
  ⟨by decide,
    ((execute_records_time ⟨0, 7, -1⟩ ⟨0, 0xa5, 3, 0⟩ none none
      { World.fresh 1000 [] with lags := [3, 3, 3, 3, 3, 3, 3] }).1 (by decide)).2⟩

/-! ## Encoding failures -/

/-- C17: genCrc returns 0 whenever the length is 31 or more, or the length is positive
and the data pointer is null; execute then returns false and leaves the world as it was:
no write, no read, no delay, no pin change, no clock reading, and the object unchanged. -/
theorem execute_rejects_unencodable (self : JbdBms) (hd : request_header_t)
    (cmd result : Option (List Nat)) (w : World)
    (h : 31 ≤ hd.length ∨ (0 < hd.length ∧ cmd = none)) :
    (∀ b : Nat, genCrc b hd.length cmd = 0)
    ∧ (execute self hd cmd result w).rc = false
    ∧ (execute self hd cmd result w).world = w
    ∧ (execute self hd cmd result w).self = self
    ∧ (execute self hd cmd result w).result = result := by
  have hg : ∀ b : Nat, genCrc b hd.length cmd = 0 := by
    intro b
    have hc : ¬ (hd.length < 31 ∧ (hd.length = 0 ∨ cmd.isSome = true)) := by
      rcases h with h | ⟨h1, h2⟩
      · omega
      · subst h2
        simp only [Option.isSome_none, Bool.false_eq_true, or_false]
        omega
    simp only [genCrc, hc, if_false]
    rfl
  have hp : (prepareCmd hd cmd).1 = false := by
    simp only [prepareCmd, genRequestCrc, hg]
    rfl
  refine ⟨hg, ?_, ?_, ?_, ?_⟩ <;> · rw [execute_eq]; simp only [hp, if_true]

/-- Witness of C17: a request that declares 31 payload bytes. -/
theorem execute_rejects_unencodable_witness :
    (31 ≤ (⟨0, 0xa5, 3, 31⟩ : request_header_t).length
      ∨ (0 < (⟨0, 0xa5, 3, 31⟩ : request_header_t).length
          ∧ some (List.replicate 31 0) = none))
    ∧ (execute ⟨0, 7, 4⟩ ⟨0, 0xa5, 3, 31⟩ (some (List.replicate 31 0)) none
        (World.fresh 1000 [1, 2, 3])).world = World.fresh 1000 [1, 2, 3] :=
  ⟨by decide,
    (execute_rejects_unencodable ⟨0, 7, 4⟩ ⟨0, 0xa5, 3, 31⟩ (some (List.replicate 31 0)) none
      (World.fresh 1000 [1, 2, 3]) (by decide)).2.2.1⟩

/-- C18, the code at the failing input: command 0 with length 0 and no payload is within
the limits of the checksum (length below 31, no data needed), its checksum is the
regular value 0x0000, and prepareCmd takes that for the failure sentinel: the encoding
step fails and execute returns false without any input or output. -/
theorem prepareCmd_rejects_command_zero :
    (⟨0, 0xa5, 0, 0⟩ : request_header_t).length < 31
    ∧ genCrc 0 0 (some []) = swap (negSum 0 [])
    ∧ (prepareCmd ⟨0, 0xa5, 0, 0⟩ none).1 = false
    ∧ (prepareCmd ⟨0, 0xa5, 0, 0⟩ (some [])).1 = false
    ∧ (execute ⟨0, 0, -1⟩ ⟨0, 0xa5, 0, 0⟩ none none (World.fresh 0 [])).rc = false
    ∧ (execute ⟨0, 0, -1⟩ ⟨0, 0xa5, 0, 0⟩ none none (World.fresh 0 [])).world
        = World.fresh 0 [] := by
  decide

/-! ## Request frames of the four commands -/

/-- Bytes written by `execute` for a request that passes encoding, when the stream takes
the four writes in full. -/
theorem execute_output_of_prepared (self : JbdBms) (hd : request_header_t)
    (cmd result : Option (List Nat)) (w : World) (h' : request_header_t) (crc : Nat)
    (hp : prepareCmd hd cmd = (true, h', crc))
    (hlen : h'.length ≤ (cmd.getD []).length)
    (hfull : acceptsInFull w.caps [4, h'.length, 2, 1] = true) :
    (execute self hd cmd result w).world.output
      = w.output ++ (h'.bytes ++ (cmd.getD []).take h'.length ++ u16Bytes crc ++ [0x77]) := by
  rw [execute_output _ _ _ _ _ (by rw [hp]), hp]
  have ht := (transmit_full h' cmd crc (txWorld self w) hlen (by simpa using hfull)).2
  rw [ht, txWorld_output]

/-- C14: for each of the four mosfet masks m (0 none, 1 charge, 2 discharge, 3 both),
setMosfetStatus writes exactly the nine bytes DD 5A E1 02 00 m FF (1D - m) 77 when the
stream accepts every write in full. -/
theorem setMosfetStatus_frame (self : JbdBms) (m : mosfet_t) (w : World)
    (hfull : acceptsInFull w.caps [4, 2, 2, 1] = true) :
    (setMosfetStatus self m w).world.output
      = w.output ++ [0xdd, 0x5a, 0xe1, 0x02, 0x00, m.val, 0xff, 0x1d - m.val, 0x77] := by
  cases m
  · exact execute_output_of_prepared self ⟨0, WRITE, MOSFET, 2⟩ (some [0, 0]) none w
      ⟨0xdd, 0x5a, 0xe1, 2⟩ 0x1dff rfl (by decide) hfull
  · exact execute_output_of_prepared self ⟨0, WRITE, MOSFET, 2⟩ (some [0, 1]) none w
      ⟨0xdd, 0x5a, 0xe1, 2⟩ 0x1cff rfl (by decide) hfull
  · exact execute_output_of_prepared self ⟨0, WRITE, MOSFET, 2⟩ (some [0, 2]) none w
      ⟨0xdd, 0x5a, 0xe1, 2⟩ 0x1bff rfl (by decide) hfull
  · exact execute_output_of_prepared self ⟨0, WRITE, MOSFET, 2⟩ (some [0, 3]) none w
      ⟨0xdd, 0x5a, 0xe1, 2⟩ 0x1aff rfl (by decide) hfull

/-- Witness of C14: both mosfets on. -/
theorem setMosfetStatus_frame_witness :
    acceptsInFull (World.fresh 0 []).caps [4, 2, 2, 1] = true
    ∧ (setMosfetStatus ⟨0, 0, -1⟩ mosfet_t.MOSFET_BOTH (World.fresh 0 [])).world.output
        = [0xdd, 0x5a, 0xe1, 0x02, 0x00, 0x03, 0xff, 0x1a, 0x77] :=
  ⟨by decide,
    setMosfetStatus_frame ⟨0, 0, -1⟩ mosfet_t.MOSFET_BOTH (World.fresh 0 []) (by decide)⟩

/-- C15: the requests of getStatus, getCells and getHardware pass the encoding step, and
when the stream accepts every write in full they write exactly DD A5 03 00 FF FD 77,
DD A5 04 00 FF FC 77 and DD A5 05 00 FF FB 77. -/
theorem read_request_frames (self : JbdBms) (data : List Nat) (w : World)
    (hfull : acceptsInFull w.caps [4, 0, 2, 1] = true) :
    ((prepareCmd ⟨0, READ, STATUS, 0⟩ none).1 = true
      ∧ (prepareCmd ⟨0, READ, CELLS, 0⟩ none).1 = true
      ∧ (prepareCmd ⟨0, READ, HARDWARE, 0⟩ none).1 = true)
    ∧ (getStatus self data w).world.output
        = w.output ++ [0xdd, 0xa5, 0x03, 0x00, 0xff, 0xfd, 0x77]
    ∧ (getCells self data w).world.output
        = w.output ++ [0xdd, 0xa5, 0x04, 0x00, 0xff, 0xfc, 0x77]
    ∧ (getHardware self data w).world.output
        = w.output ++ [0xdd, 0xa5, 0x05, 0x00, 0xff, 0xfb, 0x77] := by
  refine ⟨by decide, ?_, ?_, ?_⟩
  · exact execute_output_of_prepared self ⟨0, READ, STATUS, 0⟩ none (some data) w
      ⟨0xdd, 0xa5, 3, 0⟩ 0xfdff rfl (by decide) hfull
  · exact execute_output_of_prepared self ⟨0, READ, CELLS, 0⟩ none (some data) w
      ⟨0xdd, 0xa5, 4, 0⟩ 0xfcff rfl (by decide) hfull
  · exact execute_output_of_prepared self ⟨0, READ, HARDWARE, 0⟩ none (some data) w
      ⟨0xdd, 0xa5, 5, 0⟩ 0xfbff rfl (by decide) hfull

/-- Witness of C15: the three read commands on an idle stream. -/
theorem read_request_frames_witness :
    acceptsInFull (World.fresh 0 []).caps [4, 0, 2, 1] = true
    ∧ (getStatus ⟨0, 0, -1⟩ (List.replicate 24 0) (World.fresh 0 [])).world.output
        = [0xdd, 0xa5, 0x03, 0x00, 0xff, 0xfd, 0x77] :=
  ⟨by decide,
    (read_request_frames ⟨0, 0, -1⟩ (List.replicate 24 0) (World.fresh 0 [])
      (by decide)).2.1⟩

/-! ## Fault bits -/

theorem and_two_pow_ne_zero (f i : Nat) : ((f &&& 2 ^ i) != 0) = f.testBit i := by
  rw [Nat.and_two_pow]
  cases f.testBit i
  · simp
  · have : (2 : Nat) ^ i ≠ 0 := by positivity
    simp [this]

/-- C16: each of the thirteen fault accessors returns true exactly when its own bit of
the fault mask is set: bit 0 for isCellOvervoltage up to bit 12 for isMosfetSoftwareLock;
no other bit, in particular none of the bits 13 to 15, enters any of them. -/
theorem fault_accessors_test_one_bit (f : Nat) :
    isCellOvervoltage f = f.testBit 0
    ∧ isCellUndervoltage f = f.testBit 1
    ∧ isOvervoltage f = f.testBit 2
    ∧ isUndervoltage f = f.testBit 3
    ∧ isChargeOvertemperature f = f.testBit 4
    ∧ isChargeUndertemperature f = f.testBit 5
    ∧ isDischargeOvertemperature f = f.testBit 6
    ∧ isDischargeUndertemperature f = f.testBit 7
    ∧ isChargeOvercurrent f = f.testBit 8
    ∧ isDischargeOvercurrent f = f.testBit 9
    ∧ isShortCircuit f = f.testBit 10
    ∧ isIcError f = f.testBit 11
    ∧ isMosfetSoftwareLock f = f.testBit 12 :=
  ⟨and_two_pow_ne_zero f 0, and_two_pow_ne_zero f 1, and_two_pow_ne_zero f 2,
    and_two_pow_ne_zero f 3, and_two_pow_ne_zero f 4, and_two_pow_ne_zero f 5,
    and_two_pow_ne_zero f 6, and_two_pow_ne_zero f 7, and_two_pow_ne_zero f 8,
    and_two_pow_ne_zero f 9, and_two_pow_ne_zero f 10, and_two_pow_ne_zero f 11,
    and_two_pow_ne_zero f 12⟩

/-! ## Byte order of the decoded records -/

theorem length_swapAt (m : List Nat) (off : Nat) : (swapAt m off).length = m.length := by
  simp [swapAt, setU16At]

theorem getD_swapAt_of_ne (m : List Nat) (off j : Nat) (h1 : j ≠ off) (h2 : j ≠ off + 1) :
    (swapAt m off).getD j 0 = m.getD j 0 := by
  simp only [swapAt, setU16At]
  rw [getD_set_ne _ _ _ _ (Ne.symm h2), getD_set_ne _ _ _ _ (Ne.symm h1)]

theorem swap_lt (v : Nat) : swap v < 65536 := by
  unfold swap; omega

theorem u16At_setU16At (m : List Nat) (off v : Nat) (hv : v < 65536)
    (h : off + 1 < m.length) : u16At (setU16At m off v) off = v := by
  simp only [setU16At, u16At]
  rw [getD_set_self _ _ _ (by simp only [List.length_set]; exact h),
    getD_set_ne _ _ _ _ (by omega), getD_set_self _ _ _ (by omega)]
  simp only [u16OfBytes]
  omega

theorem u16At_swapAt_self (m : List Nat) (off : Nat) (h : off + 1 < m.length) :
    u16At (swapAt m off) off = swap (u16At m off) :=
  u16At_setU16At m off _ (swap_lt _) h

theorem u16At_swapAt_of_disjoint (m : List Nat) (off off' : Nat)
    (h : off' + 1 < off ∨ off + 1 < off') :
    u16At (swapAt m off) off' = u16At m off' := by
  simp only [u16At]
  rw [getD_swapAt_of_ne _ _ _ (by omega) (by omega),
    getD_swapAt_of_ne _ _ _ (by omega) (by omega)]

theorem swapCells_succ (n : Nat) (m : List Nat) :
    swapCells (n + 1) m = swapAt (swapCells n m) (2 * n) := by
  simp [swapCells, List.range_succ, List.foldl_append]

theorem length_swapCells (n : Nat) (m : List Nat) : (swapCells n m).length = m.length := by
  induction n with
  | zero => rfl
  | succ n ih => rw [swapCells_succ, length_swapAt, ih]

/-- The loop does not touch the bytes behind the elements it has swapped. -/
theorem getD_swapCells_of_le (n : Nat) (m : List Nat) (j : Nat) (h : 2 * n ≤ j) :
    (swapCells n m).getD j 0 = m.getD j 0 := by
  induction n with
  | zero => rfl
  | succ n ih =>
    rw [swapCells_succ, getD_swapAt_of_ne _ _ _ (by omega) (by omega), ih (by omega)]

/-- The loop swaps each of the elements it covers once. -/
theorem u16At_swapCells (n : Nat) (m : List Nat) (i : Nat) (hi : i < n)
    (h : 2 * i + 1 < m.length) :
    u16At (swapCells n m) (2 * i) = swap (u16At m (2 * i)) := by
  induction n with
  | zero => omega
  | succ n ih =>
    rw [swapCells_succ]
    by_cases hin : i = n
    · subst hin
      rw [u16At_swapAt_self _ _ (by rw [length_swapCells]; exact h)]
      simp only [u16At]
      rw [getD_swapCells_of_le _ _ _ (le_refl _), getD_swapCells_of_le _ _ _ (by omega)]
    · rw [u16At_swapAt_of_disjoint _ _ _ (by omega), ih (by omega)]

theorem swapStatus_eq (m : List Nat) : swapStatus m = swapCells 9 m := by
  have e1 := swapCells_succ 0 m
  have e2 := swapCells_succ 1 m
  have e3 := swapCells_succ 2 m
  have e4 := swapCells_succ 3 m
  have e5 := swapCells_succ 4 m
  have e6 := swapCells_succ 5 m
  have e7 := swapCells_succ 6 m
  have e8 := swapCells_succ 7 m
  have e9 := swapCells_succ 8 m
  have e0 : swapCells 0 m = m := rfl
  simp only [Nat.reduceAdd, Nat.reduceMul] at e1 e2 e3 e4 e5 e6 e7 e8 e9
  rw [e9, e8, e7, e6, e5, e4, e3, e2, e1, e0]
  rfl

theorem swap_u16OfBytes (lo hi : Nat) (hlo : lo < 256) (hhi : hi < 256) :
    swap (u16OfBytes lo hi) = 256 * lo + hi := by
  have h1 : (lo + 256 * hi) % 256 = lo := by omega
  have h2 : (lo + 256 * hi) / 256 % 256 = hi := by omega
  simp only [swap, u16OfBytes, h1, h2]
  omega

theorem getD_store (mem p : List Nat) (j : Nat) (h : j < p.length) :
    (store mem p).getD j 0 = p.getD j 0 := by
  simp only [store, List.getD_eq_getElem?_getD]
  rw [List.getElem?_append_left h]

theorem length_store_ge (mem p : List Nat) : p.length ≤ (store mem p).length := by
  simp [store]

/-- The result buffer after an accepted response: the payload stored over its start. -/
theorem execute_result_store (self : JbdBms) (hd : request_header_t)
    (cmd : Option (List Nat)) (mem : List Nat) (w : World)
    (hrc : (execute self hd cmd (some mem) w).rc = true) :
    (execute self hd cmd (some mem) w).result = some (store mem (payloadOf w.input)) := by
  have hrecv := (execute_rc_true self hd cmd (some mem) w hrc).2.2
  rw [execute_result _ _ _ _ _ hrc]
  have hp := readPayload_spec (declaredLength w.input) (some mem)
    (readBytes 4 (rxWorld self hd cmd w)).2
  have hres : (receive (some mem) (rxWorld self hd cmd w)).2.1
      = (readPayload (declaredLength w.input) (some mem)
          (readBytes 4 (rxWorld self hd cmd w)).2).2.1 := by
    have hdr : response_header_t.ofBytes (w.input.take 4)
        = ⟨w.input.getD 0 0, w.input.getD 1 0, w.input.getD 2 0, declaredLength w.input⟩ := by
      simp [response_header_t.ofBytes, getD_take_of_lt, declaredLength]
    revert hrecv
    simp only [receive, readBytes_fst, rxWorld_input, hdr]
    repeat (first | split | simp)
  rw [hres]
  unfold readPayload
  by_cases h0 : declaredLength w.input = 0
  · simp [h0, payloadOf, store]
  · simp [h0, payloadOf]

/-- After an accepted response the swapped 16-bit elements of the result buffer hold the
big-endian values of the payload, and the bytes behind them are those of the payload. -/
theorem swapCells_store (self : JbdBms) (hd : request_header_t) (cmd : Option (List Nat))
    (data : List Nat) (w : World) (n : Nat) (hbytes : allBytes w.input = true)
    (hacc : (execute self hd cmd (some data) w).rc = true) :
    (∀ i : Nat, i < n → 2 * i + 1 < declaredLength w.input →
      u16At (swapCells n (store data (payloadOf w.input))) (2 * i)
        = 256 * (payloadOf w.input).getD (2 * i) 0 + (payloadOf w.input).getD (2 * i + 1) 0)
    ∧ (∀ j : Nat, 2 * n ≤ j → j < declaredLength w.input →
      (swapCells n (store data (payloadOf w.input))).getD j 0
        = (payloadOf w.input).getD j 0) := by
  obtain ⟨-, -, -, hlen, -, -⟩ := execute_accepts self hd cmd (some data) w hacc
  have hpl := payloadOf_length w.input (by omega)
  have hpb := allBytes_payloadOf w.input hbytes
  have hsl := length_store_ge data (payloadOf w.input)
  constructor
  · intro i hi h2
    rw [u16At_swapCells _ _ _ hi (by omega), u16At, getD_store _ _ _ (by omega),
      getD_store _ _ _ (by omega),
      swap_u16OfBytes _ _ (getD_lt_of_allBytes _ _ hpb) (getD_lt_of_allBytes _ _ hpb)]
  · intro j h1 h2
    rw [getD_swapCells_of_le _ _ _ h1, getD_store _ _ _ (by omega)]

/-- C12: when the status response is accepted and its payload p has at least 23 bytes,
getStatus returns true and the record holds voltage = 256 p[0] + p[1], current = the
signed 16-bit value of 256 p[2] + p[3], and so on for the nine two-byte fields (each one
swapped once), and the bytes p[18] to p[22] unchanged in version, currentCapacity,
mosfetStatus, cells and ntcs. -/
theorem getStatus_decodes (self : JbdBms) (data : List Nat) (w : World)
    (hbytes : allBytes w.input = true)
    (hacc : (execute self ⟨0, READ, STATUS, 0⟩ none (some data) w).rc = true)
    (h23 : 23 ≤ declaredLength w.input) :
    (getStatus self data w).rc = true
    ∧ Status_t.ofBytes ((getStatus self data w).result.getD [])
      = { voltage := 256 * (payloadOf w.input).getD 0 0 + (payloadOf w.input).getD 1 0,
          current := toInt16
            (256 * (payloadOf w.input).getD 2 0 + (payloadOf w.input).getD 3 0),
          remainingCapacity :=
            256 * (payloadOf w.input).getD 4 0 + (payloadOf w.input).getD 5 0,
          nominalCapacity :=
            256 * (payloadOf w.input).getD 6 0 + (payloadOf w.input).getD 7 0,
          cycles := 256 * (payloadOf w.input).getD 8 0 + (payloadOf w.input).getD 9 0,
          productionDate :=
            256 * (payloadOf w.input).getD 10 0 + (payloadOf w.input).getD 11 0,
          balanceLow := 256 * (payloadOf w.input).getD 12 0 + (payloadOf w.input).getD 13 0,
          balanceHigh :=
            256 * (payloadOf w.input).getD 14 0 + (payloadOf w.input).getD 15 0,
          fault := 256 * (payloadOf w.input).getD 16 0 + (payloadOf w.input).getD 17 0,
          version := (payloadOf w.input).getD 18 0,
          currentCapacity := (payloadOf w.input).getD 19 0,
          mosfetSatus := (payloadOf w.input).getD 20 0,
          cells := (payloadOf w.input).getD 21 0,
          ntcs := (payloadOf w.input).getD 22 0 } := by
  refine ⟨hacc, ?_⟩
  have hres : (getStatus self data w).result
      = some (swapCells 9 (store data (payloadOf w.input))) := by
    simp only [getStatus, execute_result_store _ _ _ _ _ hacc, Option.map_some',
      swapStatus_eq]
  obtain ⟨hf, hg⟩ := swapCells_store self ⟨0, READ, STATUS, 0⟩ none data w 9 hbytes hacc
  have f0 := hf 0 (by omega) (by omega)
  have f1 := hf 1 (by omega) (by omega)
  have f2 := hf 2 (by omega) (by omega)
  have f3 := hf 3 (by omega) (by omega)
  have f4 := hf 4 (by omega) (by omega)
  have f5 := hf 5 (by omega) (by omega)
  have f6 := hf 6 (by omega) (by omega)
  have f7 := hf 7 (by omega) (by omega)
  have f8 := hf 8 (by omega) (by omega)
  have g18 := hg 18 (by omega) (by omega)
  have g19 := hg 19 (by omega) (by omega)
  have g20 := hg 20 (by omega) (by omega)
  have g21 := hg 21 (by omega) (by omega)
  have g22 := hg 22 (by omega) (by omega)
  simp only [Nat.reduceMul, Nat.reduceAdd] at f0 f1 f2 f3 f4 f5 f6 f7 f8
  simp only [hres, Option.getD_some, Status_t.ofBytes, f0, f1, f2, f3, f4, f5, f6, f7, f8,
    g18, g19, g20, g21, g22]

/-- Witness of C12: a status response of 23 bytes, with a current of -2. -/
theorem getStatus_decodes_witness :
    (allBytes (wellFormed 3 [5, 40, 0xff, 0xfe, 1, 2, 3, 4, 5, 6, 7, 8, 9, 10, 11, 12, 13,
        14, 15, 16, 17, 18, 19]) = true
      ∧ (execute ⟨0, 0, -1⟩ ⟨0, READ, STATUS, 0⟩ none (some (List.replicate 24 0))
          (World.fresh 0 (wellFormed 3 [5, 40, 0xff, 0xfe, 1, 2, 3, 4, 5, 6, 7, 8, 9, 10, 11,
            12, 13, 14, 15, 16, 17, 18, 19]))).rc = true
      ∧ 23 ≤ declaredLength (wellFormed 3 [5, 40, 0xff, 0xfe, 1, 2, 3, 4, 5, 6, 7, 8, 9, 10,
          11, 12, 13, 14, 15, 16, 17, 18, 19]))
    ∧ (Status_t.ofBytes ((getStatus ⟨0, 0, -1⟩ (List.replicate 24 0)
        (World.fresh 0 (wellFormed 3 [5, 40, 0xff, 0xfe, 1, 2, 3, 4, 5, 6, 7, 8, 9, 10, 11,
          12, 13, 14, 15, 16, 17, 18, 19]))).result.getD [])).current = -2 :=
  ⟨by decide,
    by
      have h := (getStatus_decodes ⟨0, 0, -1⟩ (List.replicate 24 0)
        (World.fresh 0 (wellFormed 3 [5, 40, 0xff, 0xfe, 1, 2, 3, 4, 5, 6, 7, 8, 9, 10, 11,
          12, 13, 14, 15, 16, 17, 18, 19])) (by decide) (by decide) (by decide)).2
      rw [h]
      decide⟩

/-- C13: when the cells response is accepted and its payload p has 2n bytes, getCells
returns true and for every i < n element i of the array is 256 p[2i] + p[2i+1]. -/
theorem getCells_decodes (self : JbdBms) (data : List Nat) (w : World) (n : Nat)
    (hbytes : allBytes w.input = true)
    (hacc : (execute self ⟨0, READ, CELLS, 0⟩ none (some data) w).rc = true)
    (hn : declaredLength w.input = 2 * n) :
    (getCells self data w).rc = true
    ∧ ∀ i : Nat, i < n →
        Cells_t.voltage ((getCells self data w).result.getD []) i
          = 256 * (payloadOf w.input).getD (2 * i) 0
              + (payloadOf w.input).getD (2 * i + 1) 0 := by
  refine ⟨hacc, fun i hi => ?_⟩
  have hres : (getCells self data w).result
      = some (swapCells 32 (store data (payloadOf w.input))) := by
    simp only [getCells, execute_result_store _ _ _ _ _ hacc, Option.map_some']
  have h64 := (execute_accepts self _ none (some data) w hacc).2.1
  obtain ⟨hf, -⟩ := swapCells_store self ⟨0, READ, CELLS, 0⟩ none data w 32 hbytes hacc
  rw [hres, Option.getD_some, Cells_t.voltage]
  exact hf i (by omega) (by omega)

/-- Witness of C13: two cells of 3300 mV and 3305 mV. -/
theorem getCells_decodes_witness :
    (allBytes (wellFormed 4 [0x0c, 0xe4, 0x0c, 0xe9]) = true
      ∧ (execute ⟨0, 0, -1⟩ ⟨0, READ, CELLS, 0⟩ none (some (List.replicate 64 0))
          (World.fresh 0 (wellFormed 4 [0x0c, 0xe4, 0x0c, 0xe9]))).rc = true
      ∧ declaredLength (wellFormed 4 [0x0c, 0xe4, 0x0c, 0xe9]) = 2 * 2 ∧ 1 < 2)
    ∧ Cells_t.voltage ((getCells ⟨0, 0, -1⟩ (List.replicate 64 0)
        (World.fresh 0 (wellFormed 4 [0x0c, 0xe4, 0x0c, 0xe9]))).result.getD []) 1 = 3305 :=
  ⟨by decide,
    (getCells_decodes ⟨0, 0, -1⟩ (List.replicate 64 0)
      (World.fresh 0 (wellFormed 4 [0x0c, 0xe4, 0x0c, 0xe9])) 2
      (by decide) (by decide) (by decide)).2 1 (by decide)⟩

/-! ## The 31-byte ceiling of the checksum on responses -/

/-- C19, the code at the failing input: a well-formed cells response for 16 cells of
3084 mV (32 payload bytes, checksum FE 60) is rejected by getCells, and so is one for 32
cells (64 payload bytes), while the response for 15 cells is accepted: genCrc refuses to
sum 31 bytes or more and returns 0, which isValid compares with the received checksum. -/
theorem getCells_rejects_sixteen_cells :
    wellFormed 4 (List.replicate 32 0x0c)
        = [0xdd, 4, 0, 32] ++ List.replicate 32 0x0c ++ [0xfe, 0x60, 0x77]
    ∧ (getCells ⟨0, 0, -1⟩ (List.replicate 64 0)
        (World.fresh 0 (wellFormed 4 (List.replicate 32 0x0c)))).rc = false
    ∧ (getCells ⟨0, 0, -1⟩ (List.replicate 64 0)
        (World.fresh 0 (wellFormed 4 (List.replicate 64 0x0c)))).rc = false
    ∧ (getCells ⟨0, 0, -1⟩ (List.replicate 64 0)
        (World.fresh 0 (wellFormed 4 (List.replicate 30 0x0c)))).rc = true := by
  decide

/-- C20, the code at the failing input: a well-formed hardware response with an
identifier of 31 characters A (checksum F8 02) is rejected by getHardware, while an
identifier of 30 characters is accepted: genCrc sums fewer than 31 bytes only. -/
theorem getHardware_rejects_thirty_one_chars :
    wellFormed 5 (List.replicate 31 0x41)
        = [0xdd, 5, 0, 31] ++ List.replicate 31 0x41 ++ [0xf8, 0x02, 0x77]
    ∧ (getHardware ⟨0, 0, -1⟩ (List.replicate 32 0)
        (World.fresh 0 (wellFormed 5 (List.replicate 31 0x41)))).rc = false
    ∧ (getHardware ⟨0, 0, -1⟩ (List.replicate 32 0)
        (World.fresh 0 (wellFormed 5 (List.replicate 30 0x41)))).rc = true
    ∧ ((getHardware ⟨0, 0, -1⟩ (List.replicate 32 0)
        (World.fresh 0 (wellFormed 5 (List.replicate 30 0x41)))).result.getD []).take 30
        = List.replicate 30 0x41 := by
  decide

/-! ## Production date -/

/-- C23, counterexample: with the formulas of the spec the packed value
0b0011000_1100_11111 has the year field 0b0011000 = 24, so the year is 2024, not 2003. -/
theorem year_counterexample :
    year 0b0011000110011111 = 2024 ∧ year 0b0011000110011111 ≠ 2003 := by
  decide

/-- C23, amended: with year = 2000 + (value >> 9), month = (value >> 5) & 0xF and
day = value & 0x1F the packed value 0b0011000_1100_11111 decodes to year 2024, month 12,
day 31. -/
theorem production_date_example :
    year 0b0011000110011111 = 2024 ∧ month 0b0011000110011111 = 12
    ∧ day 0b0011000110011111 = 31 := by
  decide

/-! ## The failure value of the checksum -/

/-- C27: on valid checksum input (seed byte, length below 31, at least that many data
bytes) the sum byte + length + data is at most 7935; genCrc returns 0 exactly when byte
and length are both 0; and prepareCmd rejects a valid request exactly when its command
and length are both 0. -/
theorem genCrc_zero_iff (start d b len : Nat) (data : List Nat) (hb : b < 256)
    (hlen : len < 31) (hd : len ≤ data.length) (hbytes : allBytes data = true) :
    b + len + (data.take len).sum ≤ 7935
    ∧ (genCrc b len (some data) = 0 ↔ b = 0 ∧ len = 0)
    ∧ ((prepareCmd ⟨start, d, b, len⟩ (some data)).1 = false ↔ b = 0 ∧ len = 0) := by
  have hg := genCrc_valid b len data hb hlen hd hbytes
  have ht := allBytes_take data len hbytes
  have hs := sum_le_of_allBytes (data.take len) ht
  have hl : (data.take len).length = len := by simp [hd]
  rw [hl] at hs
  have hz : genCrc b len (some data) = 0 ↔ b = 0 ∧ len = 0 := by
    rw [hg, swap_eq_zero _ (by omega)]
    constructor
    · intro h; omega
    · rintro ⟨h1, h2⟩
      subst h1 h2
      simp
  refine ⟨by omega, hz, ?_⟩
  simp only [prepareCmd, genRequestCrc, bne_eq_false_iff_eq, beq_iff_eq]
  exact hz

/-- Witness of C27: the status request, whose checksum is not 0. -/
theorem genCrc_zero_iff_witness :
    ((3 : Nat) < 256 ∧ (0 : Nat) < 31 ∧ 0 ≤ ([] : List Nat).length ∧ allBytes [] = true)
    ∧ (genCrc 3 0 (some []) = 0 ↔ (3 : Nat) = 0 ∧ (0 : Nat) = 0) :=
  ⟨by decide, (genCrc_zero_iff 0 0xa5 3 0 [] (by decide) (by decide) (by decide) (by decide)).2.1⟩

/-! ## Outcome of `execute` once the request is on the wire -/

/-- With the request encoded and written in full, everything is decided by the response
phase. -/
theorem execute_of_written (self : JbdBms) (hd : request_header_t)
    (cmd result : Option (List Nat)) (w : World)
    (hprep : (prepareCmd hd cmd).1 = true)
    (hcmd : hd.length ≤ (cmd.getD []).length)
    (hfull : acceptsInFull w.caps [4, hd.length, 2, 1] = true) :
    (execute self hd cmd result w).rc = (receive result (rxWorld self hd cmd w)).1
    ∧ (execute self hd cmd result w).result = (receive result (rxWorld self hd cmd w)).2.1
    ∧ (execute self hd cmd result w).world.input
        = (receive result (rxWorld self hd cmd w)).2.2.input := by
  have ht := (transmit_full (prepareCmd hd cmd).2.1 cmd (prepareCmd hd cmd).2.2
    (txWorld self w) hcmd (by simpa using hfull)).1
  rw [execute_eq]
  simp [hprep, ht]

theorem header_ofBytes_take (inp : List Nat) :
    response_header_t.ofBytes (inp.take 4)
      = ⟨inp.getD 0 0, inp.getD 1 0, inp.getD 2 0, declaredLength inp⟩ := by
  simp [response_header_t.ofBytes, getD_take_of_lt, declaredLength]

/-- A header with a wrong start byte or a length above 64 ends the response phase after
the four header bytes. -/
theorem receive_bad_header (result : Option (List Nat)) (w : World)
    (h4 : 4 ≤ w.input.length)
    (hbad : w.input.getD 0 0 ≠ 0xdd ∨ 64 < declaredLength w.input) :
    (receive result w).1 = false
    ∧ (receive result w).2.1 = result
    ∧ (receive result w).2.2.input = w.input.drop 4 := by
  have hc : ¬ (w.input.getD 0 0 = 0xdd ∧ declaredLength w.input ≤ 64) := by
    rintro ⟨h1, h2⟩
    rcases hbad with h | h
    · exact h h1
    · omega
  have h4b : ¬ w.input.length < 4 := by omega
  simp only [receive, readBytes_fst, header_ofBytes_take, length_take_ne]
  rw [if_neg h4b, if_pos hc]
  exact ⟨rfl, rfl, rfl⟩

/-- A header that does not arrive in full ends the response phase. -/
theorem receive_short_header (result : Option (List Nat)) (w : World)
    (h4 : w.input.length < 4) :
    (receive result w).1 = false ∧ (receive result w).2.1 = result := by
  simp only [receive, readBytes_fst, length_take_ne]
  rw [if_pos h4]
  exact ⟨rfl, rfl⟩

/-- C29: after a request written in full, a response header with a start byte other than
0xDD or a declared length above 64 makes execute return false with exactly the four
header bytes taken from the stream; an accepted response with declared length L leaves
the stream with exactly L + 7 bytes taken. -/
theorem execute_bytes_consumed (self : JbdBms) (hd : request_header_t)
    (cmd result : Option (List Nat)) (w : World)
    (hprep : (prepareCmd hd cmd).1 = true)
    (hcmd : hd.length ≤ (cmd.getD []).length)
    (hfull : acceptsInFull w.caps [4, hd.length, 2, 1] = true) :
    (4 ≤ w.input.length →
      (w.input.getD 0 0 ≠ 0xdd ∨ 64 < declaredLength w.input) →
      (execute self hd cmd result w).rc = false
      ∧ (execute self hd cmd result w).world.input = w.input.drop 4)
    ∧ ((execute self hd cmd result w).rc = true →
      (execute self hd cmd result w).world.input
        = w.input.drop (declaredLength w.input + 7)) := by
  obtain ⟨e1, -, e3⟩ := execute_of_written self hd cmd result w hprep hcmd hfull
  constructor
  · intro h4 hbad
    have hb := receive_bad_header result (rxWorld self hd cmd w)
      (by simpa only [rxWorld_input] using h4) (by simpa only [rxWorld_input] using hbad)
    simp only [rxWorld_input] at hb
    rw [e1, e3]
    exact ⟨hb.1, hb.2.2⟩
  · intro hrc
    rw [e1] at hrc
    have hs := ((receive_spec result (rxWorld self hd cmd w)).2 hrc).2
    simp only [rxWorld_input] at hs
    rw [e3, hs]

/-- Witness of C29: a response that starts with 0xDC loses its header only. -/
theorem execute_bytes_consumed_witness :
    ((prepareCmd ⟨0, 0xa5, 3, 0⟩ none).1 = true
      ∧ 0 ≤ ((none : Option (List Nat)).getD []).length
      ∧ acceptsInFull (World.fresh 0 [0xdc, 3, 0, 0, 0, 0, 0x77, 1, 2]).caps [4, 0, 2, 1] = true
      ∧ 4 ≤ (World.fresh 0 [0xdc, 3, 0, 0, 0, 0, 0x77, 1, 2]).input.length
      ∧ ((World.fresh 0 [0xdc, 3, 0, 0, 0, 0, 0x77, 1, 2]).input.getD 0 0 ≠ 0xdd
          ∨ 64 < declaredLength (World.fresh 0 [0xdc, 3, 0, 0, 0, 0, 0x77, 1, 2]).input))
    ∧ (execute ⟨0, 0, -1⟩ ⟨0, 0xa5, 3, 0⟩ none (some [0, 0])
        (World.fresh 0 [0xdc, 3, 0, 0, 0, 0, 0x77, 1, 2])).rc = false
    ∧ (execute ⟨0, 0, -1⟩ ⟨0, 0xa5, 3, 0⟩ none (some [0, 0])
        (World.fresh 0 [0xdc, 3, 0, 0, 0, 0, 0x77, 1, 2])).world.input
        = [0, 0, 0x77, 1, 2] :=
  ⟨by decide,
    (execute_bytes_consumed ⟨0, 0, -1⟩ ⟨0, 0xa5, 3, 0⟩ none (some [0, 0])
      (World.fresh 0 [0xdc, 3, 0, 0, 0, 0, 0x77, 1, 2])
      (by decide) (by decide) (by decide)).1 (by decide) (by decide)⟩

theorem u16OfBytes_eq_zero (a b : Nat) : u16OfBytes a b = 0 ↔ a = 0 ∧ b = 0 := by
  unfold u16OfBytes; omega

theorem genCrc_of_long (b len : Nat) (d : Option (List Nat)) (h : 31 ≤ len) :
    genCrc b len d = 0 := by
  have hc : ¬ (len < 31 ∧ (len = 0 ∨ d.isSome = true)) := by omega
  simp only [genCrc, hc, if_false]
  rfl

theorem prepareCmd_mosfet (m : mosfet_t) :
    (prepareCmd ⟨0, WRITE, MOSFET, 2⟩ (some [0, m.val])).1 = true := by
  cases m <;> decide

/-- C24: with the request written in full, setMosfetStatus returns true exactly when the
stream delivers at least seven bytes of which the first is 0xDD, the return code and the
declared length are 0 and both checksum bytes are 0x00; a response that declares a
payload makes it return false, there being no result buffer. -/
theorem setMosfetStatus_acknowledged (self : JbdBms) (m : mosfet_t) (w : World)
    (hfull : acceptsInFull w.caps [4, 2, 2, 1] = true) :
    ((setMosfetStatus self m w).rc = true ↔
      (7 ≤ w.input.length ∧ w.input.getD 0 0 = 0xdd ∧ w.input.getD 2 0 = 0
        ∧ w.input.getD 3 0 = 0 ∧ w.input.getD 4 0 = 0 ∧ w.input.getD 5 0 = 0))
    ∧ (declaredLength w.input ≠ 0 → (setMosfetStatus self m w).rc = false) := by
  have e1 := (execute_of_written self ⟨0, WRITE, MOSFET, 2⟩ (some [0, m.val]) none w
    (prepareCmd_mosfet m) (by simp) hfull).1
  have hs := (receive_spec none (rxWorld self ⟨0, WRITE, MOSFET, 2⟩ (some [0, m.val]) w)).1
  simp only [rxWorld_input] at hs
  have key : (setMosfetStatus self m w).rc = true ↔
      (7 ≤ w.input.length ∧ w.input.getD 0 0 = 0xdd ∧ w.input.getD 2 0 = 0
        ∧ w.input.getD 3 0 = 0 ∧ w.input.getD 4 0 = 0 ∧ w.input.getD 5 0 = 0) := by
    unfold setMosfetStatus
    rw [e1, hs]
    constructor
    · rintro ⟨h0, -, hL, hlen, hcrc, hrc⟩
      have hL0 : declaredLength w.input = 0 := by
        rcases hL with h | h
        · exact h
        · cases h
      rw [hrc, hL0, payloadOf, hL0] at hcrc
      have hz : genCrc 0 0 (some (List.take 0 (List.drop 4 w.input))) = 0 := by
        rw [List.take_zero]; decide
      rw [hz] at hcrc
      have := (u16OfBytes_eq_zero _ _).1 hcrc.symm
      rw [hL0] at hlen
      exact ⟨by omega, h0, hrc, hL0, this.1, this.2⟩
    · rintro ⟨hlen, h0, hrc, hL0, h4, h5⟩
      have hL : declaredLength w.input = 0 := hL0
      refine ⟨h0, by omega, Or.inl hL, by omega, ?_, hrc⟩
      rw [hrc, hL, payloadOf, hL, List.take_zero]
      show genCrc 0 0 (some []) = u16OfBytes (w.input.getD 4 0) (w.input.getD 5 0)
      rw [h4, h5]
      decide
  refine ⟨key, fun hne => ?_⟩
  cases hrc : (setMosfetStatus self m w).rc with
  | false => rfl
  | true => exact absurd (key.1 hrc).2.2.2.1 hne

/-- Witness of C24: the acknowledgement DD E1 00 00 00 00 77. -/
theorem setMosfetStatus_acknowledged_witness :
    acceptsInFull (World.fresh 0 [0xdd, 0xe1, 0, 0, 0, 0, 0x77]).caps [4, 2, 2, 1] = true
    ∧ (setMosfetStatus ⟨0, 0, -1⟩ mosfet_t.MOSFET_BOTH
        (World.fresh 0 [0xdd, 0xe1, 0, 0, 0, 0, 0x77])).rc = true :=
  ⟨by decide,
    (setMosfetStatus_acknowledged ⟨0, 0, -1⟩ mosfet_t.MOSFET_BOTH
      (World.fresh 0 [0xdd, 0xe1, 0, 0, 0, 0, 0x77]) (by decide)).1.2 (by decide)⟩

/-- C25: with the request written in full and a result buffer provided, a complete
response with start 0xDD, return code 0 and declared length L between 31 and 64 is
accepted exactly when both checksum bytes are 0x00, whatever its payload; and a
well-formed response with 31 to 64 payload bytes, whose arithmetic checksum is never 0,
is rejected. -/
theorem execute_long_payload_unchecked (self : JbdBms) (hd : request_header_t)
    (cmd : Option (List Nat)) (mem : List Nat) (w : World)
    (hprep : (prepareCmd hd cmd).1 = true)
    (hcmd : hd.length ≤ (cmd.getD []).length)
    (hfull : acceptsInFull w.caps [4, hd.length, 2, 1] = true) :
    (w.input.getD 0 0 = 0xdd → w.input.getD 2 0 = 0 →
      31 ≤ declaredLength w.input → declaredLength w.input ≤ 64 →
      declaredLength w.input + 7 ≤ w.input.length →
      ((execute self hd cmd (some mem) w).rc = true ↔
        (w.input.getD (4 + declaredLength w.input) 0 = 0
          ∧ w.input.getD (5 + declaredLength w.input) 0 = 0)))
    ∧ (∀ (c : Nat) (p rest : List Nat), allBytes p = true → 31 ≤ p.length → p.length ≤ 64 →
        w.input = wellFormed c p ++ rest →
        negSum 0 p ≠ 0 ∧ (execute self hd cmd (some mem) w).rc = false) := by
  have e1 := (execute_of_written self hd cmd (some mem) w hprep hcmd hfull).1
  have hs := (receive_spec (some mem) (rxWorld self hd cmd w)).1
  simp only [rxWorld_input] at hs
  have part1 : w.input.getD 0 0 = 0xdd → w.input.getD 2 0 = 0 →
      31 ≤ declaredLength w.input → declaredLength w.input ≤ 64 →
      declaredLength w.input + 7 ≤ w.input.length →
      ((execute self hd cmd (some mem) w).rc = true ↔
        (w.input.getD (4 + declaredLength w.input) 0 = 0
          ∧ w.input.getD (5 + declaredLength w.input) 0 = 0)) := by
    intro h0 h2 h31 h64 hlen
    rw [e1, hs, genCrc_of_long _ _ _ h31]
    constructor
    · rintro ⟨-, -, -, -, hcrc, -⟩
      exact (u16OfBytes_eq_zero _ _).1 hcrc.symm
    · intro h
      exact ⟨h0, h64, Or.inr rfl, hlen, ((u16OfBytes_eq_zero _ _).2 h).symm, h2⟩
  refine ⟨part1, ?_⟩
  intro c p rest hp h31 h64 hin
  obtain ⟨h0, h2, hL, -, hhi, hlo, hlen7⟩ := responseFrame_layout 0xdd c 0 p
    (negSum 0 p / 256) (negSum 0 p % 256) 0x77 rest
  have hin2 : w.input
      = responseFrame 0xdd c 0 p (negSum 0 p / 256) (negSum 0 p % 256) 0x77 ++ rest := hin
  rw [← hin2] at h0 h2 hL hhi hlo hlen7
  have hsum := sum_le_of_allBytes p hp
  have hnz : negSum 0 p ≠ 0 := by unfold negSum; omega
  refine ⟨hnz, ?_⟩
  cases hrc : (execute self hd cmd (some mem) w).rc with
  | false => rfl
  | true =>
    exfalso
    have := (part1 h0 h2 (by omega) (by omega) (by omega)).1 hrc
    rw [hL, hhi, hlo] at this
    omega

/-- Witness of C25: a response with 31 payload bytes and checksum 00 00 is accepted. -/
theorem execute_long_payload_unchecked_witness :
    ((prepareCmd ⟨0, 0xa5, 5, 0⟩ none).1 = true
      ∧ 0 ≤ ((none : Option (List Nat)).getD []).length
      ∧ acceptsInFull
          (World.fresh 0 ([0xdd, 5, 0, 31] ++ List.replicate 31 0x41 ++ [0, 0, 0x77])).caps
          [4, 0, 2, 1] = true)
    ∧ (execute ⟨0, 0, -1⟩ ⟨0, 0xa5, 5, 0⟩ none (some (List.replicate 32 0))
        (World.fresh 0 ([0xdd, 5, 0, 31] ++ List.replicate 31 0x41 ++ [0, 0, 0x77]))).rc
        = true :=
  ⟨by decide,
    ((execute_long_payload_unchecked ⟨0, 0, -1⟩ ⟨0, 0xa5, 5, 0⟩ none (List.replicate 32 0)
      (World.fresh 0 ([0xdd, 5, 0, 31] ++ List.replicate 31 0x41 ++ [0, 0, 0x77]))
      (by decide) (by decide) (by decide)).1
      (by decide) (by decide) (by decide) (by decide) (by decide)).2 (by decide)⟩

/-! ## The result buffer as a function of the bytes on the stream -/

/-- The response phase stores the payload bytes it gets, once the header has passed the
start and length checks and declares a payload; otherwise it leaves the buffer alone. -/
theorem receive_result (result : Option (List Nat)) (w : World) :
    (receive result w).2.1
      = if 4 ≤ w.input.length ∧ w.input.getD 0 0 = 0xdd ∧ declaredLength w.input ≤ 64
            ∧ declaredLength w.input ≠ 0 then
          result.map fun mem => store mem (payloadOf w.input)
        else result := by
  have hrp : (readPayload (declaredLength w.input) result (readBytes 4 w).2).2.1
      = if declaredLength w.input ≠ 0 then
          result.map fun mem => store mem (payloadOf w.input)
        else result := by
    unfold readPayload
    by_cases h0 : declaredLength w.input = 0
    · simp [h0]
    · cases result <;> simp [h0, payloadOf]
  by_cases h4 : w.input.length < 4
  · have h4b : ¬ 4 ≤ w.input.length := by omega
    rw [(receive_short_header result w h4).2]
    simp [h4b]
  by_cases hs : w.input.getD 0 0 = 0xdd ∧ declaredLength w.input ≤ 64
  swap
  · rw [(receive_bad_header result w (by omega) (by
      by_cases h : w.input.getD 0 0 = 0xdd
      · exact Or.inr (by
          by_contra hle
          exact hs ⟨h, by omega⟩)
      · exact Or.inl h)).2.1]
    have hc : ¬ (4 ≤ w.input.length ∧ w.input.getD 0 0 = 0xdd ∧ declaredLength w.input ≤ 64
        ∧ declaredLength w.input ≠ 0) := fun h => hs ⟨h.2.1, h.2.2.1⟩
    rw [if_neg hc]
  have hres : (receive result w).2.1
      = (readPayload (declaredLength w.input) result (readBytes 4 w).2).2.1 := by
    simp only [receive, readBytes_fst, header_ofBytes_take, length_take_ne]
    rw [if_neg h4, if_neg (not_not_intro hs)]
    repeat (first | split | rfl)
  rw [hres, hrp]
  by_cases h0 : declaredLength w.input = 0
  · simp [h0]
  · have hc : 4 ≤ w.input.length ∧ w.input.getD 0 0 = 0xdd ∧ declaredLength w.input ≤ 64
        ∧ declaredLength w.input ≠ 0 := ⟨by omega, hs.1, hs.2, h0⟩
    rw [if_pos hc, if_pos h0]

/-- Result buffer of `execute` on a world that differs in the bytes to be read only. -/
theorem execute_result_set_input (self : JbdBms) (hd : request_header_t)
    (cmd result : Option (List Nat)) (w : World) (inp : List Nat) :
    (execute self hd cmd result { w with input := inp }).result
      = if ((prepareCmd hd cmd).1
            && (transmit (prepareCmd hd cmd).2.1 cmd (prepareCmd hd cmd).2.2
                (txWorld self w)).1) = true then
          (receive result (rxWorld self hd cmd { w with input := inp })).2.1
        else result := by
  have ht : (transmit (prepareCmd hd cmd).2.1 cmd (prepareCmd hd cmd).2.2
      (txWorld self { w with input := inp })).1
      = (transmit (prepareCmd hd cmd).2.1 cmd (prepareCmd hd cmd).2.2 (txWorld self w)).1 :=
    transmit_fst_congr _ _ _ _ _ (by simp)
  rw [execute_eq, ht]
  by_cases hp : (prepareCmd hd cmd).1 = true
  · by_cases h2 : (transmit (prepareCmd hd cmd).2.1 cmd (prepareCmd hd cmd).2.2
        (txWorld self w)).1 = true
    · simp [hp, h2]
    · simp only [Bool.not_eq_true] at h2
      simp [hp, h2]
  · simp only [Bool.not_eq_true] at hp
    simp [hp]

/-- C22, the code at the failing input: with a 32-byte Hardware_t, a response that
declares 33 payload bytes and carries the checksum 00 00 makes getHardware return true,
and 33 bytes have been stored at the buffer, one past its end; the well-formed response
with the same payload is rejected, after the same 33 bytes have been stored. -/
theorem getHardware_overruns_buffer :
    (List.replicate 32 0).length = 32
    ∧ declaredLength ([0xdd, 5, 0, 33] ++ List.replicate 33 0x41 ++ [0, 0, 0x77]) = 33
    ∧ (getHardware ⟨0, 0, -1⟩ (List.replicate 32 0)
        (World.fresh 0 ([0xdd, 5, 0, 33] ++ List.replicate 33 0x41 ++ [0, 0, 0x77]))).rc
        = true
    ∧ (getHardware ⟨0, 0, -1⟩ (List.replicate 32 0)
        (World.fresh 0 ([0xdd, 5, 0, 33] ++ List.replicate 33 0x41 ++ [0, 0, 0x77]))).result
        = some (List.replicate 33 0x41)
    ∧ (getHardware ⟨0, 0, -1⟩ (List.replicate 32 0)
        (World.fresh 0 (wellFormed 5 (List.replicate 33 0x41)))).rc = false
    ∧ (getHardware ⟨0, 0, -1⟩ (List.replicate 32 0)
        (World.fresh 0 (wellFormed 5 (List.replicate 33 0x41)))).result
        = some (List.replicate 33 0x41) := by
  decide

/-! ## `getStatus` after a failed `execute` -/

theorem accepted_of_full (caps : List Nat) (n : Nat) (ns : List Nat)
    (h1 : accepted caps n = n) (h2 : acceptsInFull caps.tail ns = true) :
    acceptsInFull caps (n :: ns) = true := by
  cases caps with
  | nil => rfl
  | cons c cs =>
    simp only [accepted] at h1
    simp only [List.tail_cons] at h2
    simp only [acceptsInFull, h2, Bool.and_true, decide_eq_true_eq]
    omega

/-- The transmit phase succeeds only if the stream takes the four writes in full. -/
theorem transmit_true (h : request_header_t) (command : Option (List Nat)) (crc : Nat)
    (w : World) (hlen : h.length ≤ (command.getD []).length)
    (ht : (transmit h command crc w).1 = true) :
    acceptsInFull w.caps [4, h.length, 2, 1] = true := by
  have l2 : ((command.getD []).take h.length).length = h.length := by simp [hlen]
  by_cases a1 : accepted w.caps h.bytes.length = 4
  swap
  · simp only [transmit, write_fst] at ht
    rw [if_pos a1] at ht
    cases ht
  by_cases a2 : accepted (write h.bytes w).2.caps ((command.getD []).take h.length).length
      = h.length
  swap
  · simp only [transmit, write_fst] at ht
    rw [if_neg (not_not_intro a1), if_pos a2] at ht
    cases ht
  by_cases a3 : accepted (write ((command.getD []).take h.length) (write h.bytes w).2).2.caps
      (u16Bytes crc).length = 2
  swap
  · simp only [transmit, write_fst] at ht
    rw [if_neg (not_not_intro a1), if_neg (not_not_intro a2), if_pos a3] at ht
    cases ht
  simp only [transmit, write_fst] at ht
  rw [if_neg (not_not_intro a1), if_neg (not_not_intro a2), if_neg (not_not_intro a3)] at ht
  have a4 : accepted w.caps.tail.tail.tail 1 = 1 := by
    simpa using ht
  rw [l2] at a2
  apply accepted_of_full _ _ _ a1
  apply accepted_of_full _ _ _ a2
  apply accepted_of_full _ _ _ a3
  apply accepted_of_full _ _ _ a4
  cases w.caps.tail.tail.tail.tail <;> rfl

/-- Result buffer of `execute`: what the response phase leaves, if that phase is reached. -/
theorem execute_result_eq (self : JbdBms) (hd : request_header_t)
    (cmd result : Option (List Nat)) (w : World) :
    (execute self hd cmd result w).result
      = if ((prepareCmd hd cmd).1
            && (transmit (prepareCmd hd cmd).2.1 cmd (prepareCmd hd cmd).2.2
                (txWorld self w)).1) = true then
          (receive result (rxWorld self hd cmd w)).2.1
        else result := by
  have hres := execute_result_set_input self hd cmd result w w.input
  have hw : ({ w with input := w.input } : World) = w := rfl
  rw [hw] at hres
  exact hres

/-- A short write, a header that does not arrive in full, a wrong start byte and a
declared length above 64 make `execute` fail; so does a stream that ends with the
header. -/
theorem execute_fails_early (self : JbdBms) (hd : request_header_t)
    (cmd result : Option (List Nat)) (w : World)
    (hcmd : hd.length ≤ (cmd.getD []).length)
    (hfail : acceptsInFull w.caps [4, hd.length, 2, 1] = false ∨ w.input.length ≤ 4
      ∨ w.input.getD 0 0 ≠ 0xdd ∨ 64 < declaredLength w.input) :
    (execute self hd cmd result w).rc = false := by
  cases hrc : (execute self hd cmd result w).rc with
  | false => rfl
  | true =>
    exfalso
    obtain ⟨h0, h64, -, hlen7, -, -⟩ := execute_accepts self hd cmd result w hrc
    have ht := (execute_rc_true self hd cmd result w hrc).2.1
    have hl : (prepareCmd hd cmd).2.1.length = hd.length := rfl
    have hfull := transmit_true (prepareCmd hd cmd).2.1 cmd (prepareCmd hd cmd).2.2
      (txWorld self w) (by rw [hl]; exact hcmd) ht
    rw [txWorld_caps, hl] at hfull
    rcases hfail with h | h | h | h
    · rw [hfull] at h; cases h
    · omega
    · exact h h0
    · omega

/-- The result buffer is as before when `execute` stops before the payload: after a
short write, a missing or rejected header, a declared length of 0, or when no byte
follows the header. -/
theorem execute_untouched (self : JbdBms) (hd : request_header_t)
    (cmd : Option (List Nat)) (mem : List Nat) (w : World)
    (hcmd : hd.length ≤ (cmd.getD []).length)
    (hfail : acceptsInFull w.caps [4, hd.length, 2, 1] = false ∨ w.input.length ≤ 4
      ∨ w.input.getD 0 0 ≠ 0xdd ∨ 64 < declaredLength w.input
      ∨ declaredLength w.input = 0) :
    (execute self hd cmd (some mem) w).result = some mem := by
  rw [execute_result_eq]
  by_cases hpt : ((prepareCmd hd cmd).1
      && (transmit (prepareCmd hd cmd).2.1 cmd (prepareCmd hd cmd).2.2
          (txWorld self w)).1) = true
  swap
  · rw [if_neg hpt]
  rw [if_pos hpt, receive_result]
  simp only [rxWorld_input]
  by_cases hc : 4 ≤ w.input.length ∧ w.input.getD 0 0 = 0xdd ∧ declaredLength w.input ≤ 64
      ∧ declaredLength w.input ≠ 0
  swap
  · rw [if_neg hc]
  rw [if_pos hc]
  simp only [Bool.and_eq_true] at hpt
  have hl : (prepareCmd hd cmd).2.1.length = hd.length := rfl
  have hfull := transmit_true (prepareCmd hd cmd).2.1 cmd (prepareCmd hd cmd).2.2
    (txWorld self w) (by rw [hl]; exact hcmd) hpt.2
  rw [txWorld_caps, hl] at hfull
  rcases hfail with h | h | h | h | h
  · rw [hfull] at h; cases h
  · have hd4 : List.drop 4 w.input = [] := List.drop_eq_nil_of_le h
    simp [payloadOf, hd4, store]
  · exact absurd hc.2.1 h
  · omega
  · exact absurd h hc.2.2.2

/-- C28: getStatus applies its nine byte swaps to whatever execute leaves in the record,
whether or not execute succeeded. Whenever execute fails with the record as it was (it
does after a short write, a short or rejected header, and when no payload byte arrives;
the record is also as it was when the declared length is 0), getStatus returns false and
the record holds, in each of its nine 16-bit fields, the byte swap of the previous value,
with the bytes behind them unchanged; so the record is as before only if each of those
fields had equal high and low bytes. -/
theorem getStatus_swaps_after_failure (self : JbdBms) (data : List Nat) (w : World)
    (hbytes : allBytes data = true) (hlen : 18 ≤ data.length) :
    ((getStatus self data w).rc = (execute self ⟨0, READ, STATUS, 0⟩ none (some data) w).rc
      ∧ (getStatus self data w).result
          = (execute self ⟨0, READ, STATUS, 0⟩ none (some data) w).result.map swapStatus)
    ∧ ((acceptsInFull w.caps [4, 0, 2, 1] = false ∨ w.input.length ≤ 4
          ∨ w.input.getD 0 0 ≠ 0xdd ∨ 64 < declaredLength w.input) →
        (execute self ⟨0, READ, STATUS, 0⟩ none (some data) w).rc = false
        ∧ (execute self ⟨0, READ, STATUS, 0⟩ none (some data) w).result = some data)
    ∧ (declaredLength w.input = 0 →
        (execute self ⟨0, READ, STATUS, 0⟩ none (some data) w).result = some data)
    ∧ ((execute self ⟨0, READ, STATUS, 0⟩ none (some data) w).rc = false →
        (execute self ⟨0, READ, STATUS, 0⟩ none (some data) w).result = some data →
        (getStatus self data w).rc = false
        ∧ (getStatus self data w).result = some (swapStatus data)
        ∧ (∀ i : Nat, i < 9 → u16At (swapStatus data) (2 * i) = swap (u16At data (2 * i)))
        ∧ (∀ j : Nat, 18 ≤ j → (swapStatus data).getD j 0 = data.getD j 0)
        ∧ (swapStatus data = data →
            ∀ i : Nat, i < 9 → data.getD (2 * i) 0 = data.getD (2 * i + 1) 0)) := by
  have hswap : ∀ i : Nat, i < 9 →
      u16At (swapStatus data) (2 * i) = swap (u16At data (2 * i)) := by
    intro i hi
    rw [swapStatus_eq]
    exact u16At_swapCells 9 data i hi (by omega)
  refine ⟨⟨rfl, rfl⟩, ?_, ?_, ?_⟩
  · intro hfail
    refine ⟨execute_fails_early self ⟨0, READ, STATUS, 0⟩ none (some data) w (by simp) hfail,
      execute_untouched self ⟨0, READ, STATUS, 0⟩ none data w (by simp) ?_⟩
    rcases hfail with h | h | h | h
    · exact Or.inl h
    · exact Or.inr (Or.inl h)
    · exact Or.inr (Or.inr (Or.inl h))
    · exact Or.inr (Or.inr (Or.inr (Or.inl h)))
  · intro h0
    exact execute_untouched self ⟨0, READ, STATUS, 0⟩ none data w (by simp)
      (Or.inr (Or.inr (Or.inr (Or.inr h0))))
  · intro hrc hres
    refine ⟨hrc, ?_, hswap, ?_, ?_⟩
    · simp only [getStatus, hres, Option.map_some']
    · intro j hj
      rw [swapStatus_eq]
      exact getD_swapCells_of_le 9 data j (by omega)
    · intro heq i hi
      have h := hswap i hi
      rw [heq, u16At, swap_u16OfBytes _ _ (getD_lt_of_allBytes _ _ hbytes)
        (getD_lt_of_allBytes _ _ hbytes)] at h
      have b1 := getD_lt_of_allBytes data (2 * i) hbytes
      have b2 := getD_lt_of_allBytes data (2 * i + 1) hbytes
      simp only [u16OfBytes] at h
      omega

/-- Witness of C28: the device answers the status request with return code 0x80 and no
payload; a record whose voltage field held 0x0102 holds 0x0201 afterwards. -/
theorem getStatus_swaps_after_failure_witness :
    (allBytes ([0x02, 0x01] ++ List.replicate 22 0) = true
      ∧ 18 ≤ ([0x02, 0x01] ++ List.replicate 22 0).length
      ∧ (execute ⟨0, 0, -1⟩ ⟨0, READ, STATUS, 0⟩ none
          (some ([0x02, 0x01] ++ List.replicate 22 0))
          (World.fresh 0 [0xdd, 3, 0x80, 0, 0xff, 0x80, 0x77])).rc = false
      ∧ (execute ⟨0, 0, -1⟩ ⟨0, READ, STATUS, 0⟩ none
          (some ([0x02, 0x01] ++ List.replicate 22 0))
          (World.fresh 0 [0xdd, 3, 0x80, 0, 0xff, 0x80, 0x77])).result
          = some ([0x02, 0x01] ++ List.replicate 22 0)
      ∧ u16At ([0x02, 0x01] ++ List.replicate 22 0) 0 = 0x0102)
    ∧ (getStatus ⟨0, 0, -1⟩ ([0x02, 0x01] ++ List.replicate 22 0)
        (World.fresh 0 [0xdd, 3, 0x80, 0, 0xff, 0x80, 0x77])).rc = false
    ∧ u16At (swapStatus ([0x02, 0x01] ++ List.replicate 22 0)) (2 * 0) = 0x0201 :=
  ⟨by decide,
    ((getStatus_swaps_after_failure ⟨0, 0, -1⟩ ([0x02, 0x01] ++ List.replicate 22 0)
      (World.fresh 0 [0xdd, 3, 0x80, 0, 0xff, 0x80, 0x77]) (by decide) (by decide)).2.2.2
      (by decide) (by decide)).1,
    ((getStatus_swaps_after_failure ⟨0, 0, -1⟩ ([0x02, 0x01] ++ List.replicate 22 0)
      (World.fresh 0 [0xdd, 3, 0x80, 0, 0xff, 0x80, 0x77]) (by decide) (by decide)).2.2.2
      (by decide) (by decide)).2.2.1 0 (by decide)⟩

/-! ## The direction pin -/

section Calls

variable (w : World)

@[simp] theorem events_millis :
    events (millis w).2 = events w ++ [Event.millis (w.clock % 2 ^ 32)] := by
  simp [events]

@[simp] theorem events_delay (ms : Nat) :
    events (delay ms w) = events w ++ [Event.delay ms] := by
  simp [events]

@[simp] theorem events_pinMode (p : Int) :
    events (pinMode p w) = events w ++ [Event.pinMode p] := by
  simp [events, pinMode]

@[simp] theorem events_digitalWrite (p : Int) (l : Bool) :
    events (digitalWrite p l w) = events w ++ [Event.digitalWrite p l] := by
  simp [events]

@[simp] theorem events_flush : events (flush w) = events w ++ [Event.flush] := by
  simp [events]

@[simp] theorem events_write (bs : List Nat) :
    events (write bs w).2 = events w ++ [Event.write bs (accepted w.caps bs.length)] := by
  simp [events]

@[simp] theorem events_readBytes (n : Nat) :
    events (readBytes n w).2 = events w ++ [Event.readBytes n (w.input.take n)] := by
  simp [events]

end Calls

theorem appends_start (P : Event → Bool) (w : World) : Appends P w w :=
  ⟨[], by simp, by simp⟩

theorem appends_step (P : Event → Bool) (w0 w w' : World) (ev : Event)
    (h : Appends P w0 w) (ht : events w' = events w ++ [ev]) (hev : P ev = true) :
    Appends P w0 w' := by
  obtain ⟨evs, h1, h2⟩ := h
  refine ⟨evs ++ [ev], by rw [ht, h1, List.append_assoc], ?_⟩
  intro e he
  rcases List.mem_append.1 he with h | h
  · exact h2 e h
  · simp only [List.mem_singleton] at h
    subst h
    exact hev

theorem appends_write (w0 w : World) (bs : List Nat) (h : Appends Event.isWrite w0 w) :
    Appends Event.isWrite w0 (JbdBms.write bs w).2 :=
  appends_step _ w0 w _ _ h (events_write w bs) rfl

theorem appends_readBytes (w0 w : World) (n : Nat) (h : Appends Event.isRead w0 w) :
    Appends Event.isRead w0 (JbdBms.readBytes n w).2 :=
  appends_step _ w0 w _ _ h (events_readBytes w n) rfl

/-- The transmit phase makes `write` calls only. -/
theorem appends_transmit (w0 w : World) (hd : request_header_t)
    (command : Option (List Nat)) (crc : Nat) (h : Appends Event.isWrite w0 w) :
    Appends Event.isWrite w0 (JbdBms.transmit hd command crc w).2 := by
  simp only [JbdBms.transmit]
  repeat (first | split | apply appends_write | exact h)

theorem appends_readPayload (w0 w : World) (n : Nat) (result : Option (List Nat))
    (h : Appends Event.isRead w0 w) :
    Appends Event.isRead w0 (JbdBms.readPayload n result w).2.2 := by
  unfold JbdBms.readPayload
  split
  · exact h
  · cases result with
    | none => exact h
    | some mem => exact appends_readBytes w0 w n h

/-- The response phase makes `readBytes` calls only. -/
theorem appends_receive (w0 w : World) (result : Option (List Nat))
    (h : Appends Event.isRead w0 w) :
    Appends Event.isRead w0 (JbdBms.receive result w).2.2 := by
  simp only [JbdBms.receive]
  repeat (first | split | apply appends_readBytes | apply appends_readPayload | exact h)

theorem events_spacing (self : JbdBms) (w : World) :
    events (spacing self w)
      = events w ++ Event.millis (w.clock % 2 ^ 32)
          :: (if remaining self._delay (w.clock % 2 ^ 32) self._prev ≤ self._delay then
                [Event.delay (remaining self._delay (w.clock % 2 ^ 32) self._prev)]
              else []) := by
  simp only [events, spacing_trace]
  split <;> simp

theorem events_txWorld (self : JbdBms) (w : World) :
    events (txWorld self w)
      = events (spacing self w)
          ++ (if 0 ≤ self._dir_pin then [Event.digitalWrite self._dir_pin true] else [])
          ++ [Event.flush] := by
  simp only [txWorld]
  split <;> simp

theorem events_rxWorld (self : JbdBms) (hd : request_header_t) (command : Option (List Nat))
    (w : World) :
    events (rxWorld self hd command w)
      = events (transmit (prepareCmd hd command).2.1 command (prepareCmd hd command).2.2
          (txWorld self w)).2
          ++ [Event.flush]
          ++ (if 0 ≤ self._dir_pin then [Event.digitalWrite self._dir_pin false] else []) := by
  simp only [rxWorld]
  split <;> simp

/-- The calls of an `execute` that passes encoding, in order: the clock reading and the
wait, the pin to transmit, a flush, writes, a flush, the pin to receive, reads, and the
final clock reading. -/
theorem events_execute (self : JbdBms) (hd : request_header_t)
    (cmd result : Option (List Nat)) (w : World)
    (hp : (prepareCmd hd cmd).1 = true) :
    ∃ (ws rs : List Event) (v : Nat),
      events (execute self hd cmd result w).world
        = events (spacing self w)
            ++ (if 0 ≤ self._dir_pin then [Event.digitalWrite self._dir_pin true] else [])
            ++ [Event.flush] ++ ws ++ [Event.flush]
            ++ (if 0 ≤ self._dir_pin then [Event.digitalWrite self._dir_pin false] else [])
            ++ rs ++ [Event.millis v]
      ∧ (∀ e ∈ ws, Event.isWrite e = true) ∧ (∀ e ∈ rs, Event.isRead e = true) := by
  obtain ⟨ws, hws, hw⟩ := appends_transmit (txWorld self w) (txWorld self w)
    (prepareCmd hd cmd).2.1 cmd (prepareCmd hd cmd).2.2 (appends_start _ _)
  have hrx := events_rxWorld self hd cmd w
  rw [hws, events_txWorld] at hrx
  rw [execute_eq]
  by_cases ht : (transmit (prepareCmd hd cmd).2.1 cmd (prepareCmd hd cmd).2.2
      (txWorld self w)).1 = true
  · obtain ⟨rs, hrs, hr⟩ := appends_receive (rxWorld self hd cmd w) (rxWorld self hd cmd w)
      result (appends_start _ _)
    refine ⟨ws, rs, (receive result (rxWorld self hd cmd w)).2.2.clock % 2 ^ 32, ?_, hw, hr⟩
    simp only [hp, Bool.true_eq_false, if_false, ht, if_true, events_millis, hrs, hrx]
  · simp only [Bool.not_eq_true] at ht
    refine ⟨ws, [], (rxWorld self hd cmd w).clock % 2 ^ 32, ?_, hw, by simp⟩
    simp only [hp, Bool.true_eq_false, Bool.false_eq_true, if_false, ht, events_millis, hrx,
      List.append_nil]

theorem drives_of_isRead (pin : Int) (e : Event) (h : Event.isRead e = true) :
    Event.drives pin e = none := by
  cases e <;> simp_all [Event.isRead, Event.drives]

theorem isPinWrite_of_isWrite (e : Event) (h : Event.isWrite e = true) :
    Event.isPinWrite e = false := by
  cases e <;> simp_all [Event.isWrite, Event.isPinWrite]

theorem isPinWrite_of_isRead (e : Event) (h : Event.isRead e = true) :
    Event.isPinWrite e = false := by
  cases e <;> simp_all [Event.isRead, Event.isPinWrite]

theorem filterMap_drives_of_isRead (pin : Int) (rs : List Event)
    (h : ∀ e ∈ rs, Event.isRead e = true) : rs.filterMap (Event.drives pin) = [] := by
  rw [List.filterMap_eq_nil_iff]
  intro e he
  exact drives_of_isRead pin e (h e he)

theorem callsSince_of_events (w w' : World) (X : List Event)
    (h : events w' = events w ++ X) : callsSince w w' = X := by
  rw [callsSince, h, List.drop_left]

/-- The calls that `spacing` makes are a clock reading and possibly a wait. -/
theorem spacing_calls (self : JbdBms) (w : World) :
    ∃ pre : List Event, events (spacing self w) = events w ++ pre
      ∧ ∀ e ∈ pre, Event.isWrite e = false ∧ Event.isRead e = false
          ∧ Event.isPinWrite e = false ∧ Event.drives self._dir_pin e = none := by
  refine ⟨_, events_spacing self w, ?_⟩
  intro e he
  split at he
  · simp only [List.mem_cons, List.mem_singleton, List.not_mem_nil, or_false] at he
    rcases he with h | h <;> subst h <;> exact ⟨rfl, rfl, rfl, rfl⟩
  · simp only [List.mem_cons, List.not_mem_nil, or_false] at he
    subst he
    exact ⟨rfl, rfl, rfl, rfl⟩

/-- C21: with a direction pin configured, an execute call that passes encoding drives the
pin HIGH before its first write and, after the flush that follows the writes, LOW
before its first read; the pin was last driven LOW after begin and when execute returns,
on every path provided it was LOW on entry (an encoding failure makes no call at all).
Without a pin (negative dir_pin) execute makes no digitalWrite call. -/
theorem execute_direction_line (self : JbdBms) (hd : request_header_t)
    (cmd result : Option (List Nat)) (w : World) :
    (0 ≤ self._dir_pin → (prepareCmd hd cmd).1 = true →
      (∃ pre ws rs post : List Event,
        callsSince w (execute self hd cmd result w).world
          = pre ++ [Event.digitalWrite self._dir_pin true, Event.flush] ++ ws
              ++ [Event.flush, Event.digitalWrite self._dir_pin false] ++ rs ++ post
        ∧ (∀ e ∈ pre ++ post, Event.isWrite e = false ∧ Event.isRead e = false
            ∧ Event.isPinWrite e = false)
        ∧ (∀ e ∈ ws, Event.isWrite e = true) ∧ (∀ e ∈ rs, Event.isRead e = true))
      ∧ pinLevel (execute self hd cmd result w).world self._dir_pin = some false)
    ∧ ((prepareCmd hd cmd).1 = false → (execute self hd cmd result w).world = w)
    ∧ (0 ≤ self._dir_pin → pinLevel w self._dir_pin = some false →
        pinLevel (execute self hd cmd result w).world self._dir_pin = some false)
    ∧ (self._dir_pin < 0 →
        ∀ e ∈ callsSince w (execute self hd cmd result w).world, Event.isPinWrite e = false)
    ∧ (∀ pin : Int, 0 ≤ pin →
        (begin self pin w).1._dir_pin = pin
        ∧ pinLevel (begin self pin w).2 pin = some false) := by
  have hfalse : (prepareCmd hd cmd).1 = false → (execute self hd cmd result w).world = w := by
    intro hp
    rw [execute_eq]
    simp only [hp, if_true]
  have hlow : 0 ≤ self._dir_pin → (prepareCmd hd cmd).1 = true →
      pinLevel (execute self hd cmd result w).world self._dir_pin = some false := by
    intro hpin hp
    obtain ⟨ws, rs, v, hev, -, hr⟩ := events_execute self hd cmd result w hp
    rw [pinLevel, hev]
    have e1 : [Event.digitalWrite self._dir_pin false].filterMap (Event.drives self._dir_pin)
        = [false] := by simp [Event.drives]
    have e2 : [Event.millis v].filterMap (Event.drives self._dir_pin) = [] := by
      simp [Event.drives]
    simp only [hpin, if_true, List.filterMap_append, filterMap_drives_of_isRead _ rs hr, e1,
      e2, List.append_nil]
    exact List.getLast?_concat _
  refine ⟨?_, hfalse, ?_, ?_, ?_⟩
  · intro hpin hp
    refine ⟨?_, hlow hpin hp⟩
    obtain ⟨ws, rs, v, hev, hw, hr⟩ := events_execute self hd cmd result w hp
    obtain ⟨pre, hpre, hpre2⟩ := spacing_calls self w
    refine ⟨pre, ws, rs, [Event.millis v], ?_, ?_, hw, hr⟩
    · apply callsSince_of_events
      rw [hev, hpre]
      simp only [hpin, if_true, List.append_assoc, List.singleton_append, List.cons_append,
        List.nil_append]
    · intro e he
      rcases List.mem_append.1 he with h | h
      · exact ⟨(hpre2 e h).1, (hpre2 e h).2.1, (hpre2 e h).2.2.1⟩
      · simp only [List.mem_singleton] at h
        subst h
        exact ⟨rfl, rfl, rfl⟩
  · intro hpin hentry
    by_cases hp : (prepareCmd hd cmd).1 = true
    · exact hlow hpin hp
    · simp only [Bool.not_eq_true] at hp
      rw [hfalse hp]
      exact hentry
  · intro hneg e he
    by_cases hp : (prepareCmd hd cmd).1 = true
    · obtain ⟨ws, rs, v, hev, hw, hr⟩ := events_execute self hd cmd result w hp
      obtain ⟨pre, hpre, hpre2⟩ := spacing_calls self w
      have hn : ¬ 0 ≤ self._dir_pin := by omega
      rw [hpre] at hev
      simp only [hn, if_false, List.append_nil, List.append_assoc] at hev
      rw [callsSince_of_events _ _ _ hev] at he
      simp only [List.mem_append, List.mem_singleton] at he
      rcases he with h | h | h | h | h | h
      · exact (hpre2 e h).2.2.1
      · subst h; rfl
      · exact isPinWrite_of_isWrite e (hw e h)
      · subst h; rfl
      · exact isPinWrite_of_isRead e (hr e h)
      · subst h; rfl
    · simp only [Bool.not_eq_true] at hp
      rw [hfalse hp, callsSince, List.drop_length] at he
      cases he
  · intro pin hpin
    simp only [begin, hpin, if_true, pinLevel, events_digitalWrite, events_pinMode,
      List.filterMap_append, true_and]
    simp [Event.drives]

/-- Witness of C21: pin 22, a status request and a response that is accepted. -/
theorem execute_direction_line_witness :
    ((0 : Int) ≤ (⟨0, 0, 22⟩ : JbdBms)._dir_pin ∧ (prepareCmd ⟨0, 0xa5, 3, 0⟩ none).1 = true)
    ∧ callsSince (World.fresh 0 [0xdd, 3, 0, 0, 0, 0, 0x77])
        (execute ⟨0, 0, 22⟩ ⟨0, 0xa5, 3, 0⟩ none none
          (World.fresh 0 [0xdd, 3, 0, 0, 0, 0, 0x77])).world
        = [Event.millis 0, Event.delay 0, Event.digitalWrite 22 true, Event.flush,
            Event.write [0xdd, 0xa5, 3, 0] 4, Event.write [] 0, Event.write [0xff, 0xfd] 2,
            Event.write [0x77] 1, Event.flush, Event.digitalWrite 22 false,
            Event.readBytes 4 [0xdd, 3, 0, 0], Event.readBytes 2 [0, 0],
            Event.readBytes 1 [0x77], Event.millis 0]
    ∧ pinLevel (execute ⟨0, 0, 22⟩ ⟨0, 0xa5, 3, 0⟩ none none
        (World.fresh 0 [0xdd, 3, 0, 0, 0, 0, 0x77])).world 22 = some false :=
  ⟨by decide, by decide,
    ((execute_direction_line ⟨0, 0, 22⟩ ⟨0, 0xa5, 3, 0⟩ none none
      (World.fresh 0 [0xdd, 3, 0, 0, 0, 0, 0x77])).1 (by decide) (by decide)).2⟩

end JbdBms
